import Mathlib

/-!
Verification development for the GoShield source-code obfuscator
(`src/goshield.go`).  The Go program is shallowly embedded: every
function relevant to the frozen claims is translated into an executable
Lean definition, and the claims are settled as theorems about those
definitions.

Modelling conventions:
* Go's `math/rand` stream is modelled as a function `g : Nat → Nat`
  together with an explicit position index `i`; a bounded draw
  `rand.Intn n` (resp. `rand.Int63n n`) at position `i` is `g i % n`,
  and the position advances by one per draw, mirroring the strictly
  ordered single stream of the program.
* Go strings are modelled as `List Char` (sequences of Unicode code
  points); where the Go code measures byte lengths (`len(s)`) the model
  uses the UTF-8 byte length `utf8Len`.  Bytes produced by `\xNN`
  escapes with `NN ≥ 0x80` are modelled as the code point `NN`.
* `int64` arithmetic is modelled on `Int` with explicit two's-complement
  wrapping (`wrap64`); Go's truncating division is `Int.tdiv`.
* The unbounded collision-retry loop of `getObfuscatedName` is modelled
  with explicit fuel, returning `Option`.
-/

/-- The pseudo-random stream: an infinite sequence of non-negative draws. -/
abbrev Rng := Nat → Nat

/-! ## String literal obfuscation (`obfuscateStringLiteral`, goshield.go:170-196) -/

/-- One per-character term of an encoded string expression, as emitted by
`obfuscateStringLiteral`:
* `strDec c`  renders as `string(c)` (decimal),
* `strHex c`  renders as `string(0xc)` (hexadecimal),
* `strAdd a k` renders as `string(a+k)` (additive-offset split),
* `lit c`     renders as the quoted single-character literal `"c"`. -/
inductive SPart where
  | strDec (c : Nat)
  | strHex (c : Nat)
  | strAdd (a : Int) (k : Nat)
  | lit (c : Char)
deriving DecidableEq, Repr

/-- Runtime evaluation of a single emitted term (Go's `string(n)`
conversion of a valid code point, or the literal character). -/
def SPart.evalChar : SPart → Char
  | .strDec c => Char.ofNat c
  | .strHex c => Char.ofNat c
  | .strAdd a k => Char.ofNat (a + k).toNat
  | .lit c => c

/-- Encode one character: faithful translation of the `switch rand.Intn(4)`
body of `obfuscateStringLiteral`.  Returns the emitted term and the next
stream position. -/
def encodeChar (g : Rng) (i : Nat) (r : Char) : SPart × Nat :=
  match g i % 4 with
  | 0 => (.strDec r.toNat, i + 1)
  | 1 => (.strHex r.toNat, i + 1)
  | 2 =>
      let off := g (i + 1) % 50 + 1
      (.strAdd ((r.toNat : Int) - off) off, i + 2)
  | _ =>
      if r = '"' ∨ r = '\\' ∨ r.toNat > 127 then (.strDec r.toNat, i + 1)
      else if 32 ≤ r.toNat ∧ r.toNat < 127 then (.lit r, i + 1)
      else (.strDec r.toNat, i + 1)

/-- `obfuscateStringLiteral` (goshield.go:170-196): the empty string
produces no terms (rendered as the empty-string literal `""`); a
non-empty string is split character by character, each character encoded
by `encodeChar`.  Returns the list of emitted terms (joined by `+` in
the rendered output) and the next stream position. -/
def obfuscateStringLiteral (g : Rng) (i : Nat) (s : List Char) : List SPart × Nat :=
  match s with
  | [] => ([], i)
  | c :: rest =>
      let p := encodeChar g i c
      let ps := obfuscateStringLiteral g p.2 rest
      (p.1 :: ps.1, ps.2)

/-! ## Format string obfuscation (`obfuscateFormatString`, goshield.go:198-238) -/

/-- Character class `[-+#0 ]` (format-specifier flags). -/
def isFlagChar (c : Char) : Bool :=
  c = '-' ∨ c = '+' ∨ c = '#' ∨ c = '0' ∨ c = ' '

/-- Character class `[0-9]`. -/
def isDigitChar (c : Char) : Bool :=
  '0' ≤ c ∧ c ≤ '9'

/-- Character class `[dsvftxXboqpeEgGUcTw%]` (conversion verbs). -/
def isConvChar (c : Char) : Bool :=
  c = 'd' ∨ c = 's' ∨ c = 'v' ∨ c = 'f' ∨ c = 't' ∨ c = 'x' ∨ c = 'X' ∨
  c = 'b' ∨ c = 'o' ∨ c = 'q' ∨ c = 'p' ∨ c = 'e' ∨ c = 'E' ∨ c = 'g' ∨
  c = 'G' ∨ c = 'U' ∨ c = 'c' ∨ c = 'T' ∨ c = 'w' ∨ c = '%'

/-- Consume the maximal run of characters satisfying `p`; return the run
length and the remaining characters. -/
def skipRun (p : Char → Bool) : List Char → Nat × List Char
  | [] => (0, [])
  | c :: cs =>
      if p c then
        let (n, r) := skipRun p cs
        (n + 1, r)
      else (0, c :: cs)

/-- The optional precision piece `(\.[0-9]+)?`: a dot followed by at
least one digit, consumed greedily; otherwise nothing. -/
def precLen : List Char → Nat × List Char
  | '.' :: r =>
      let kr := skipRun isDigitChar r
      if kr.1 = 0 then (0, '.' :: r) else (kr.1 + 1, kr.2)
  | other => (0, other)

/-- Length of the match of the regular expression
`%[-+#0 ]*[0-9]*(\.[0-9]+)?[dsvftxXboqpeEgGUcTw%]` anchored at the head
of `l`, or `none`.  (For this pattern the character classes of
consecutive pieces force a unique parse, so maximal-run consumption is
equivalent to the regex engine's search.) -/
def specLen (l : List Char) : Option Nat :=
  match l with
  | [] => none
  | c :: rest =>
      if c = '%' then
        let r1 := skipRun isFlagChar rest
        let r2 := skipRun isDigitChar r1.2
        let r3 := precLen r2.2
        match r3.2 with
        | c2 :: _ => if isConvChar c2 then some (1 + r1.1 + r2.1 + r3.1 + 1) else none
        | [] => none
      else none

/-- Worker for `findSpecs`; the fuel argument (instantiated with the
list length, which always suffices) makes the recursion structural. -/
def findSpecsAux : Nat → List Char → Nat → List (Nat × Nat)
  | 0, _, _ => []
  | fuel + 1, l, pos =>
      match l with
      | [] => []
      | c :: rest =>
          match specLen (c :: rest) with
          | some n => (pos, pos + n) :: findSpecsAux fuel ((c :: rest).drop n) (pos + n)
          | none => findSpecsAux fuel rest (pos + 1)

/-- `formatRe.FindAllStringIndex(s, -1)`: all leftmost non-overlapping
matches of the format-specifier regex, as (start, end) position pairs. -/
def findSpecs (l : List Char) (pos : Nat) : List (Nat × Nat) :=
  findSpecsAux l.length l pos

/-- One part of the expression produced by `obfuscateFormatString`:
either a character-split-encoded text segment, or a format specifier
passed through verbatim as a quoted literal. -/
inductive FSeg where
  | enc (ps : List SPart)
  | lit (spec : List Char)
deriving DecidableEq, Repr

/-- Runtime evaluation of one part of a format-string expression. -/
def FSeg.evalStr : FSeg → List Char
  | .enc ps => ps.map SPart.evalChar
  | .lit s => s

/-- Project the literal passthrough segments. -/
def FSeg.passthrough : FSeg → Option (List Char)
  | .enc _ => none
  | .lit s => some s

/-- The match list is position-consistent: starting from `lo`, matches
are in order, non-empty, non-overlapping, and within the string. -/
def Chained (len : Nat) : Nat → List (Nat × Nat) → Prop
  | _, [] => True
  | lo, (st, en) :: ms => lo ≤ st ∧ st < en ∧ en ≤ len ∧ Chained len en ms

/-- The loop body of `obfuscateFormatString` (goshield.go:208-235):
walk the match list, encoding the text between specifiers and passing
each specifier through verbatim, then encode the trailing text. -/
def buildSegs (g : Rng) (s : List Char) : Nat → Nat → List (Nat × Nat) → List FSeg × Nat
  | i, lastEnd, [] =>
      if lastEnd < s.length then
        let pr := obfuscateStringLiteral g i (s.drop lastEnd)
        ([.enc pr.1], pr.2)
      else ([], i)
  | i, lastEnd, (st, en) :: ms =>
      let pre : List FSeg × Nat :=
        if lastEnd < st then
          let pr := obfuscateStringLiteral g i ((s.drop lastEnd).take (st - lastEnd))
          ([.enc pr.1], pr.2)
        else ([], i)
      let spec := (s.drop st).take (en - st)
      let rest := buildSegs g s pre.2 en ms
      (pre.1 ++ FSeg.lit spec :: rest.1, rest.2)

/-- `obfuscateFormatString` (goshield.go:198-238): if the string has no
format specifiers it is encoded as a plain string literal; otherwise the
specifier matches drive `buildSegs`. -/
def obfuscateFormatString (g : Rng) (i : Nat) (s : List Char) : List FSeg × Nat :=
  match findSpecs s 0 with
  | [] =>
      let pr := obfuscateStringLiteral g i s
      ([.enc pr.1], pr.2)
  | m :: ms => buildSegs g s i 0 (m :: ms)

/-! ## Integer obfuscation (`obfuscateInteger`, goshield.go:244-259) -/

/-- Two's-complement wrap of an integer into the `int64` range
`[-2^63, 2^63)`, the semantics of Go's `int64` arithmetic. -/
def wrap64 (z : Int) : Int := (z + 2 ^ 63) % 2 ^ 64 - 2 ^ 63

/-- The unsigned 64-bit pattern of an `int64` value. -/
def toU64 (z : Int) : Nat := (z % 2 ^ 64).toNat

/-- Reinterpret an unsigned 64-bit pattern as an `int64` value. -/
def fromU64 (u : Nat) : Int := if u < 2 ^ 63 then (u : Int) else (u : Int) - 2 ^ 64

/-- Go's `int64` bitwise XOR: XOR of the two's-complement bit patterns. -/
def xor64 (a b : Int) : Int := fromU64 (toU64 a ^^^ toU64 b)

/-- The arithmetic expression emitted by `obfuscateInteger`:
`(a+b)`, `(a-b)`, `(a^b)` (XOR) or `(a/b)`, over `int64` literals. -/
inductive IExpr where
  | add (a b : Int)
  | sub (a b : Int)
  | xor (a b : Int)
  | div (a b : Int)
deriving DecidableEq, Repr

/-- Runtime evaluation of the emitted expression in Go `int64`
arithmetic (wrapping add/sub, bit-pattern XOR, truncating division). -/
def IExpr.eval : IExpr → Int
  | .add a b => wrap64 (a + b)
  | .sub a b => wrap64 (a - b)
  | .xor a b => xor64 a b
  | .div a b => Int.tdiv a b

/-- `obfuscateInteger` (goshield.go:244-259): one of four strategies is
drawn from the stream; `k` is drawn as `rand.Int63n(1000)+1` (or
`rand.Int63n(10)+2` for the division strategy); the literals `n-k`,
`n+k`, `n^k`, `n*k` appearing in the emitted source are computed in
`int64` arithmetic, hence wrapped. -/
def obfuscateInteger (g : Rng) (i : Nat) (n : Int) : IExpr × Nat :=
  match g i % 4 with
  | 0 =>
      let x : Int := (g (i + 1) % 1000 + 1 : Nat)
      (.add (wrap64 (n - x)) x, i + 2)
  | 1 =>
      let x : Int := (g (i + 1) % 1000 + 1 : Nat)
      (.sub (wrap64 (n + x)) x, i + 2)
  | 2 =>
      let x : Int := (g (i + 1) % 1000 + 1 : Nat)
      (.xor (xor64 n x) x, i + 2)
  | _ =>
      let x : Int := (g (i + 1) % 10 + 2 : Nat)
      (.div (wrap64 (n * x)) x, i + 2)

/-! ## Name generation (`generateObfuscatedName` / `getObfuscatedName`,
goshield.go:131-164) -/

/-- The global `nameMap` (original → replacement), modelled as an
association list with unique keys (entries are only inserted when the
key is absent, matching the Go map's behaviour). -/
abbrev NameMap := List (String × String)

/-- Go map lookup `nameMap[original]`. -/
def lookupName (m : NameMap) (k : String) : Option String :=
  match m with
  | [] => none
  | p :: rest => if p.1 = k then some p.2 else lookupName rest k

/-- The collision check of `getObfuscatedName`: does any previously
issued replacement equal `v`? -/
def valueExists (m : NameMap) (v : String) : Bool :=
  m.any (fun p => p.2 == v)

/-- The identifier-start alphabet of `generateObfuscatedName`. -/
def lettersList : List Char :=
  "abcdefghijklmnopqrstuvwxyzABCDEFGHIJKLMNOPQRSTUVWXYZ".toList

/-- The Unicode-lookalike table `obfuscationChars` (goshield.go:71-85),
pairing visually similar Latin, Cyrillic, and digit glyphs. -/
def obfuscationChars : List Char :=
  ['O', '0', 'o', 'l', 'I', '1', 'a', 'а', 'e', 'е', 'p', 'р', 'c', 'с',
   'x', 'х', 'y', 'у', 'k', 'к', 'B', 'В', 'H', 'Н', 'M', 'М', 'T', 'Т']

/-- The lookalike tail of a generated name: `k` draws from
`obfuscationChars`. -/
def genTail (g : Rng) : Nat → Nat → List Char
  | _, 0 => []
  | i, k + 1 => obfuscationChars.getD (g i % obfuscationChars.length) 'O' :: genTail g (i + 1) k

/-- `generateObfuscatedName(length)` (goshield.go:131-139): first rune
from the letters alphabet, the remaining `length-1` runes from the
lookalike table (called with `length = 20`). -/
def generateObfuscatedName (g : Rng) (i : Nat) (length : Nat) : String × Nat :=
  (String.mk (lettersList.getD (g i % lettersList.length) 'a' :: genTail g (i + 1) (length - 1)),
   i + length)

/-- The `for { ... }` retry loop of `getObfuscatedName`
(goshield.go:147-159): regenerate until the candidate collides with no
previously issued replacement; on success insert `original ↦ candidate`.
The loop is unbounded in Go; here it carries explicit fuel. -/
def findFreshName (g : Rng) : Nat → Nat → NameMap → String → Option (String × NameMap × Nat)
  | 0, _, _, _ => none
  | fuel + 1, i, m, original =>
      let cand := generateObfuscatedName g i 20
      if valueExists m cand.1 then findFreshName g fuel cand.2 m original
      else some (cand.1, (original, cand.1) :: m, cand.2)

/-- `getObfuscatedName` (goshield.go:141-164): memoized lookup, else a
fresh collision-checked candidate is generated and recorded. -/
def getObfuscatedName (g : Rng) (fuel : Nat) (i : Nat) (m : NameMap) (original : String) :
    Option (String × NameMap × Nat) :=
  match lookupName m original with
  | some v => some (v, m, i)
  | none => findFreshName g fuel i m original

/-- Run `getObfuscatedName` over a sequence of original names (the shape
of every client loop in the program), threading the map and the stream
position. -/
def processNames (g : Rng) (fuel : Nat) : Nat → NameMap → List String → Option (NameMap × Nat)
  | i, m, [] => some (m, i)
  | i, m, x :: xs =>
      match getObfuscatedName g fuel i m x with
      | none => none
      | some r => processNames g fuel r.2.2 r.2.1 xs

/-- Invariant carried by the name map: keys are pairwise distinct and
values are pairwise distinct. -/
def GoodMap (m : NameMap) : Prop :=
  (m.map Prod.fst).Nodup ∧ (m.map Prod.snd).Nodup

/-! ## `collectStructTypes` (goshield.go:363-381) and
`obfuscateStructTypes` (goshield.go:439-470) -/

/-- The `reservedNames` table (goshield.go:88-97). -/
def reservedNames : List String :=
  ["Error", "String", "Read", "Write", "Close", "Seek", "Len", "Cap",
   "Copy", "Append", "ServeHTTP", "Header", "Body", "Status", "StatusCode",
   "MarshalJSON", "UnmarshalJSON", "Context", "Err", "Done", "Value",
   "Deadline", "Lock", "Unlock", "RLock", "RUnlock", "ID", "URL", "URI", "HTML"]

/-- A `TypeSpec` node as far as `collectStructTypes` inspects it: its
declared name and whether its right-hand side is a struct type. -/
structure TypeSpecM where
  name : String
  isStruct : Bool
deriving DecidableEq, Repr

/-- The state touched by `collectStructTypes`: the global `nameMap`, the
global `structTypeMapping` and `typeAliasMapping`, the obfuscator's
`structTypes` set, and the stream position. -/
structure TState where
  nameMap : NameMap
  structTypeMapping : NameMap
  typeAliasMapping : NameMap
  structTypes : List String
  rngIx : Nat
deriving DecidableEq, Repr

/-- `collectStructTypes` (goshield.go:363-381): for **every** `TypeSpec`
(with no reserved-name check), allocate a replacement through
`getObfuscatedName` and record it in `structTypeMapping` (struct types)
or `typeAliasMapping` (other type declarations). -/
def collectStructTypes (g : Rng) (fuel : Nat) : List TypeSpecM → TState → Option TState
  | [], st => some st
  | ts :: rest, st =>
      match getObfuscatedName g fuel st.rngIx st.nameMap ts.name with
      | none => none
      | some r =>
          if ts.isStruct then
            collectStructTypes g fuel rest
              ⟨r.2.1, (ts.name, r.1) :: st.structTypeMapping, st.typeAliasMapping,
                ts.name :: st.structTypes, r.2.2⟩
          else
            collectStructTypes g fuel rest
              ⟨r.2.1, st.structTypeMapping, (ts.name, r.1) :: st.typeAliasMapping,
                st.structTypes, r.2.2⟩

/-- The per-identifier body of the second `ast.Inspect` of
`obfuscateStructTypes` (goshield.go:454-469): identifiers spelled like a
declared field are skipped; otherwise the identifier is looked up in
`structTypeMapping` and rewritten, and the (possibly already rewritten)
name is then looked up in `typeAliasMapping` and rewritten again. -/
def rewriteTypeIdent (fieldNameSet : List String) (stm tam : NameMap) (name : String) : String :=
  if fieldNameSet.contains name then name
  else
    let n1 :=
      match lookupName stm name with
      | some obf => obf
      | none => name
    match lookupName tam n1 with
    | some obf => obf
    | none => n1

/-! ## Configuration flags (goshield.go:55-59) -/

/-- The five pass toggles (`-no-ints`, `-no-strings`, `-no-vars`,
`-no-functions`, `-no-imports`). -/
structure Config where
  noInts : Bool
  noStrings : Bool
  noVars : Bool
  noFunctions : Bool
  noImports : Bool
deriving DecidableEq, Repr

/-! ## Rendering the emitted expressions to source text
(the `fmt.Sprintf` patterns of goshield.go) -/

/-- Decimal digits of a natural number (`%d`). -/
def renderNat (n : Nat) : List Char := Nat.toDigits 10 n

/-- Decimal rendering of an integer (`%d`). -/
def renderInt (z : Int) : List Char :=
  if z < 0 then '-' :: Nat.toDigits 10 z.natAbs else Nat.toDigits 10 z.toNat

/-- Lowercase hexadecimal digits (`%x`). -/
def renderHex (n : Nat) : List Char := Nat.toDigits 16 n

/-- Source text of one string-expression term (goshield.go:179-192). -/
def renderSPart : SPart → List Char
  | .strDec c => "string(".toList ++ renderNat c ++ [')']
  | .strHex c => "string(0x".toList ++ renderHex c ++ [')']
  | .strAdd a k => "string(".toList ++ renderInt a ++ '+' :: renderNat k ++ [')']
  | .lit c => ['"', c, '"']

/-- `strings.Join(parts, "+")`. -/
def joinPlus : List (List Char) → List Char
  | [] => []
  | [x] => x
  | x :: xs => x ++ '+' :: joinPlus xs

/-- The text returned by `obfuscateStringLiteral`: `""` for the empty
string, else the `+`-joined terms in parentheses (goshield.go:171-195). -/
def renderStringExpr (s : List Char) (ps : List SPart) : List Char :=
  if s.isEmpty then ['"', '"'] else '(' :: joinPlus (ps.map renderSPart) ++ [')']

/-- Source text of one format-string part: an encoded text segment is
the parenthesized output of `obfuscateStringLiteral` (never called on an
empty segment), a passthrough specifier is quoted verbatim
(goshield.go:218, 224). -/
def renderFSeg : FSeg → List Char
  | .enc ps => '(' :: joinPlus (ps.map renderSPart) ++ [')']
  | .lit spec => '"' :: spec ++ ['"']

/-- The text returned by `obfuscateFormatString` in the with-matches
case (goshield.go:237). -/
def renderFormatExpr (segs : List FSeg) : List Char :=
  '(' :: joinPlus (segs.map renderFSeg) ++ [')']

/-- Source text of the arithmetic expression emitted by
`obfuscateInteger` (goshield.go:248-257). -/
def renderIExpr : IExpr → List Char
  | .add a b => '(' :: renderInt a ++ '+' :: renderInt b ++ [')']
  | .sub a b => '(' :: renderInt a ++ '-' :: renderInt b ++ [')']
  | .xor a b => '(' :: renderInt a ++ '^' :: renderInt b ++ [')']
  | .div a b => '(' :: renderInt a ++ '/' :: renderInt b ++ [')']

/-! ## Text helpers (`strings` / `regexp` primitives) -/

/-- `\s` of Go's regexp (RE2): `[\t\n\f\r ]`. -/
def reWhite (c : Char) : Bool :=
  c = '\t' ∨ c = '\n' ∨ c = '\x0c' ∨ c = '\r' ∨ c = ' '

/-- `unicode.IsSpace` as used by `strings.TrimSpace` (the Latin-1
range). -/
def goWhite (c : Char) : Bool :=
  c = ' ' ∨ c = '\t' ∨ c = '\n' ∨ c = '\x0b' ∨ c = '\x0c' ∨ c = '\r' ∨
  c = '\u0085' ∨ c = '\u00A0'

/-- `strings.TrimSpace`. -/
def goTrimSpace (l : List Char) : List Char :=
  ((l.dropWhile goWhite).reverse.dropWhile goWhite).reverse

/-- `strings.Contains haystack needle` (first argument is the needle). -/
def containsSub (sub : List Char) : List Char → Bool
  | [] => sub.isEmpty
  | c :: rest => sub.isPrefixOf (c :: rest) || containsSub sub rest

/-- UTF-8 byte length of a string: what Go's `len(s)` measures. -/
def utf8Len (s : List Char) : Nat := (s.map Char.utf8Size).sum

/-- Split on newlines (`strings.Split(content, "\n")`). -/
def splitOnNl : List Char → List (List Char)
  | [] => [[]]
  | c :: rest =>
      if c = '\n' then [] :: splitOnNl rest
      else
        match splitOnNl rest with
        | l :: ls => (c :: l) :: ls
        | [] => [[c]]

/-- `strings.Join(lines, "\n")`. -/
def joinNl : List (List Char) → List Char
  | [] => []
  | [l] => l
  | l :: ls => l ++ '\n' :: joinNl ls

/-! ## `strconv.Unquote` for double-quoted literals -/

/-- Value of a hexadecimal digit. -/
def hexVal (c : Char) : Option Nat :=
  if '0' ≤ c ∧ c ≤ '9' then some (c.toNat - 48)
  else if 'a' ≤ c ∧ c ≤ 'f' then some (c.toNat - 87)
  else if 'A' ≤ c ∧ c ≤ 'F' then some (c.toNat - 55)
  else none

/-- Value of an octal digit. -/
def octVal (c : Char) : Option Nat :=
  if '0' ≤ c ∧ c ≤ '7' then some (c.toNat - 48) else none

/-- Read exactly `k` hexadecimal digits. -/
def readHex : Nat → List Char → Option (Nat × List Char)
  | 0, l => some (0, l)
  | _ + 1, [] => none
  | k + 1, c :: cs =>
      match hexVal c with
      | none => none
      | some d =>
          match readHex k cs with
          | none => none
          | some (v, rest) => some (d * 16 ^ k + v, rest)

/-- The single-character escapes accepted inside a double-quoted Go
literal (`\'` is an error there, so it is absent). -/
def escCode (e : Char) : Option Nat :=
  if e = 'a' then some 7 else if e = 'b' then some 8
  else if e = 'f' then some 12 else if e = 'n' then some 10
  else if e = 'r' then some 13 else if e = 't' then some 9
  else if e = 'v' then some 11 else if e = '\\' then some 92
  else if e = '"' then some 34 else none

/-- Unquote the body of a double-quoted literal (fuel = list length;
bytes ≥ 0x80 produced by `\xNN`/octal escapes are modelled as the code
point `NN`). -/
def unquoteBodyAux : Nat → List Char → Option (List Char)
  | _, [] => some []
  | 0, _ :: _ => none
  | fuel + 1, '\\' :: rest =>
      match rest with
      | [] => none
      | e :: cs =>
          match escCode e with
          | some code => (unquoteBodyAux fuel cs).map (Char.ofNat code :: ·)
          | none =>
              if e = 'x' then
                match readHex 2 cs with
                | some (v, rest') => (unquoteBodyAux fuel rest').map (Char.ofNat v :: ·)
                | none => none
              else if e = 'u' then
                match readHex 4 cs with
                | some (v, rest') =>
                    if v.isValidChar then (unquoteBodyAux fuel rest').map (Char.ofNat v :: ·)
                    else none
                | none => none
              else if e = 'U' then
                match readHex 8 cs with
                | some (v, rest') =>
                    if v.isValidChar then (unquoteBodyAux fuel rest').map (Char.ofNat v :: ·)
                    else none
                | none => none
              else
                match octVal e with
                | some d1 =>
                    match cs with
                    | c2 :: c3 :: cs' =>
                        match octVal c2, octVal c3 with
                        | some d2, some d3 =>
                            let v := d1 * 64 + d2 * 8 + d3
                            if v ≤ 255 then (unquoteBodyAux fuel cs').map (Char.ofNat v :: ·)
                            else none
                        | _, _ => none
                    | _ => none
                | none => none
  | fuel + 1, c :: cs =>
      if c = '"' ∨ c = '\n' then none
      else (unquoteBodyAux fuel cs).map (c :: ·)

/-- `strconv.Unquote` restricted to double-quoted string literals (the
only shape the literal regex can produce). -/
def goUnquote (l : List Char) : Option (List Char) :=
  match l with
  | '"' :: rest =>
      if rest.getLast? = some '"' then unquoteBodyAux rest.dropLast.length rest.dropLast
      else none
  | _ => none

/-! ## Quoted string-literal sweep (`obfuscateStringsInText`,
goshield.go:635-709) -/

/-- The `isVarAssignment` heuristic (goshield.go:678-681). -/
def isVarAssignment (line : List Char) : Bool :=
  containsSub "=".toList line && !containsSub "==".toList line
    && !containsSub "!=".toList line && !containsSub "(".toList line

/-- The line-level skip list (goshield.go:659-670). -/
def stringLineSkip (line : List Char) : Bool :=
  let trimmed := goTrimSpace line
  "const ".toList.isPrefixOf trimmed || "case ".toList.isPrefixOf trimmed
    || "Set(".toList.isPrefixOf trimmed || ".Set(".toList.isPrefixOf trimmed
    || containsSub ".Set(".toList line || containsSub "`json:".toList line
    || containsSub "`xml:".toList line || containsSub "`yaml:".toList line
    || containsSub "Flag".toList line || containsSub "flag.".toList line
    || containsSub "launcher.".toList line

/-- `\s*="[^"]*"\s*$` — the tail of the `typeAliasPattern` after its
second token. -/
def taRest (l : List Char) : Bool :=
  match l.dropWhile reWhite with
  | '=' :: r =>
      match r.dropWhile reWhite with
      | '"' :: r2 =>
          match r2.dropWhile (fun c => c != '"') with
          | '"' :: r3 => (r3.dropWhile reWhite).isEmpty
          | _ => false
      | _ => false
  | _ => false

/-- The second `[^\s]+` token of `typeAliasPattern`: it may end at any
point (the following `\s*=` also accepts non-space boundaries), so each
cut is tried, mirroring the regex engine's backtracking. -/
def taTok2 : List Char → Bool
  | [] => false
  | c :: cs => if reWhite c then false else (taRest cs || taTok2 cs)

/-- `typeAliasPattern.MatchString` for
`^\s*[^\s]+\s+[^\s]+\s*=\s*"[^"]*"\s*$` (goshield.go:673-676). -/
def typeAliasMatch (line : List Char) : Bool :=
  let l1 := line.dropWhile reWhite
  let tok1 := l1.takeWhile (fun c => !reWhite c)
  if tok1.isEmpty then false
  else
    match l1.dropWhile (fun c => !reWhite c) with
    | c :: r1 => if reWhite c then taTok2 ((c :: r1).dropWhile reWhite) else false
    | [] => false

/-- `obfuscateStringLiteral` as a text-to-text function: the encoded
expression rendered to source text. -/
def obfuscateStringLiteralR (g : Rng) (i : Nat) (s : List Char) : List Char × Nat :=
  let r := obfuscateStringLiteral g i s
  (renderStringExpr s r.1, r.2)

/-- `obfuscateFormatString` as a text-to-text function
(goshield.go:198-238): with no specifier matches it falls back to the
plain string encoder's text, otherwise it renders the segment list. -/
def obfuscateFormatStringR (g : Rng) (i : Nat) (s : List Char) : List Char × Nat :=
  match findSpecs s 0 with
  | [] => obfuscateStringLiteralR g i s
  | mm :: ms =>
      let r := buildSegs g s i 0 (mm :: ms)
      (renderFormatExpr r.1, r.2)

/-- The `ReplaceAllStringFunc` callback of the string sweep
(goshield.go:685-704): unquote-validate; skip values shorter than 3
bytes, values containing a backslash character, and URL-shaped values
outside a plain assignment; route the rest through the format-string
encoder (if a `%` is present) or the plain string encoder, rendering
the resulting expression as the replacement text. -/
def processStringMatch (assign : Bool) (g : Rng) (i : Nat) (m : List Char) : List Char × Nat :=
  match goUnquote m with
  | none => (m, i)
  | some s =>
      if utf8Len s < 3 then (m, i)
      else if s.contains '\\' then (m, i)
      else if containsSub "://".toList s && !assign then (m, i)
      else if s.contains '%' then obfuscateFormatStringR g i s
      else obfuscateStringLiteralR g i s

/-- Scan the body of a double-quoted literal (`([^"\\]|\\.)*"`) after an
opening quote: returns the raw body and the rest after the closing
quote, or `none` if no closing quote is reachable. -/
def scanLit : List Char → Option (List Char × List Char)
  | [] => none
  | '"' :: rest => some ([], rest)
  | '\\' :: c :: rest =>
      match scanLit rest with
      | some (body, rest') => some ('\\' :: c :: body, rest')
      | none => none
  | ['\\'] => none
  | c :: rest =>
      match scanLit rest with
      | some (body, rest') => some (c :: body, rest')
      | none => none

/-- `re.ReplaceAllStringFunc(line, …)` for the literal regex
`"([^"\\]|\\.)*"`: leftmost non-overlapping matches, each replaced by
the callback (fuel = line length). -/
def replaceLitsAux (assign : Bool) (g : Rng) : Nat → Nat → List Char → List Char × Nat
  | _, i, [] => ([], i)
  | 0, i, l => (l, i)
  | fuel + 1, i, c :: rest =>
      if c = '"' then
        match scanLit rest with
        | some (body, rest') =>
            let m := '"' :: body ++ ['"']
            let rep := processStringMatch assign g i m
            let tl := replaceLitsAux assign g fuel rep.2 rest'
            (rep.1 ++ tl.1, tl.2)
        | none =>
            let tl := replaceLitsAux assign g fuel i rest
            (c :: tl.1, tl.2)
      else
        let tl := replaceLitsAux assign g fuel i rest
        (c :: tl.1, tl.2)

/-- Replace every double-quoted literal of a line. -/
def replaceStringLits (assign : Bool) (g : Rng) (i : Nat) (line : List Char) : List Char × Nat :=
  replaceLitsAux assign g line.length i line

/-- The per-line loop of `obfuscateStringsInText` (goshield.go:644-705),
threading the `inImportBlock` flag. -/
def stringsLoop (g : Rng) : Nat → Bool → List (List Char) → List (List Char) × Nat
  | i, _, [] => ([], i)
  | i, inImp, line :: rest =>
      let trimmed := goTrimSpace line
      if "import (".toList.isPrefixOf trimmed then
        let tl := stringsLoop g i true rest
        (line :: tl.1, tl.2)
      else if inImp && trimmed = [')'] then
        let tl := stringsLoop g i false rest
        (line :: tl.1, tl.2)
      else if inImp || "import ".toList.isPrefixOf trimmed then
        let tl := stringsLoop g i inImp rest
        (line :: tl.1, tl.2)
      else if stringLineSkip line then
        let tl := stringsLoop g i inImp rest
        (line :: tl.1, tl.2)
      else if typeAliasMatch line then
        let tl := stringsLoop g i inImp rest
        (line :: tl.1, tl.2)
      else
        let rep := replaceStringLits (isVarAssignment line) g i line
        let tl := stringsLoop g rep.2 inImp rest
        (rep.1 :: tl.1, tl.2)

/-- `obfuscateStringsInText` (goshield.go:635-709). -/
def obfuscateStringsInText (cfg : Config) (g : Rng) (i : Nat) (content : List Char) :
    List Char × Nat :=
  if cfg.noStrings then (content, i)
  else
    let r := stringsLoop g i false (splitOnNl content)
    (joinNl r.1, r.2)

/-! ## Bare-integer sweep (`obfuscateIntegersInText`, goshield.go:711-758) -/

/-- The prefix separator class `[\s(=:,]`. -/
def isPreSep (c : Char) : Bool :=
  reWhite c || c = '(' || c = '=' || c = ':' || c = ','

/-- The suffix separator class `[\s),;\]]`. -/
def isPostSep (c : Char) : Bool :=
  reWhite c || c = ')' || c = ',' || c = ';' || c = ']'

/-- Numeric value of a digit string. -/
def parseDigits (ds : List Char) : Nat :=
  ds.foldl (fun acc c => acc * 10 + (c.toNat - 48)) 0

/-- The `ReplaceAllStringFunc` callback of the integer sweep
(goshield.go:740-751): the match is one prefix separator, a digit run,
and one suffix separator; `strconv.ParseInt` fails beyond the `int64`
range; values `≤ 10` or `> 100000` are left unchanged; otherwise the
digits are replaced by the rendered arithmetic-identity expression. -/
def processIntMatch (g : Rng) (i : Nat) (pre : Char) (digits : List Char) (post : Char) :
    List Char × Nat :=
  let v := parseDigits digits
  if v > 9223372036854775807 then (pre :: digits ++ [post], i)
  else if v ≤ 10 || v > 100000 then (pre :: digits ++ [post], i)
  else
    let r := obfuscateInteger g i (v : Int)
    (pre :: renderIExpr r.1 ++ [post], r.2)

/-- Leftmost non-overlapping matches of `([\s(=:,])(\d+)([\s),;\]])`
over a line, each replaced by the callback (fuel = line length). -/
def intLineScanAux (g : Rng) : Nat → Nat → List Char → List Char × Nat
  | _, i, [] => ([], i)
  | 0, i, l => (l, i)
  | fuel + 1, i, c :: rest =>
      if isPreSep c then
        match rest.takeWhile isDigitChar, rest.dropWhile isDigitChar with
        | d :: ds, p :: r3 =>
            if isPostSep p then
              let rep := processIntMatch g i c (d :: ds) p
              let tl := intLineScanAux g fuel rep.2 r3
              (rep.1 ++ tl.1, tl.2)
            else
              let tl := intLineScanAux g fuel i rest
              (c :: tl.1, tl.2)
        | _, _ =>
            let tl := intLineScanAux g fuel i rest
            (c :: tl.1, tl.2)
      else
        let tl := intLineScanAux g fuel i rest
        (c :: tl.1, tl.2)

/-- The quoting / already-encoded line skip (goshield.go:720-725). -/
def intLineSkip (line : List Char) : Bool :=
  containsSub "string(".toList line || line.contains '"' || line.contains '`'
    || line.contains '\''

/-- The declaration-header line skip (goshield.go:727-735). -/
def intDeclSkip (line : List Char) : Bool :=
  let trimmed := goTrimSpace line
  "func ".toList.isPrefixOf trimmed || containsSub "func (".toList line
    || "import".toList.isPrefixOf trimmed || "package".toList.isPrefixOf trimmed
    || "type ".toList.isPrefixOf trimmed || "const ".toList.isPrefixOf trimmed
    || "var ".toList.isPrefixOf trimmed

/-- The per-line loop of `obfuscateIntegersInText` (goshield.go:719-752). -/
def intsLoop (g : Rng) : Nat → List (List Char) → List (List Char) × Nat
  | i, [] => ([], i)
  | i, line :: rest =>
      if intLineSkip line then
        let tl := intsLoop g i rest
        (line :: tl.1, tl.2)
      else if intDeclSkip line then
        let tl := intsLoop g i rest
        (line :: tl.1, tl.2)
      else
        let rep := intLineScanAux g line.length i line
        let tl := intsLoop g rep.2 rest
        (rep.1 :: tl.1, tl.2)

/-- `obfuscateIntegersInText` (goshield.go:711-758). -/
def obfuscateIntegersInText (cfg : Config) (g : Rng) (i : Nat) (content : List Char) :
    List Char × Nat :=
  if cfg.noInts then (content, i)
  else
    let r := intsLoop g i (splitOnNl content)
    (joinNl r.1, r.2)

/-! ## Embedded-code block encoding (`obfuscateBacktickStrings`,
goshield.go:569-633).  The Go code iterates the raw block byte by byte;
ASCII content (the case its keyword sniffing targets) is modelled
character by character. -/

/-- The struct-tag markers that exempt a raw block (goshield.go:585-586). -/
def btTagMarkers : List (List Char) :=
  ["json:".toList, "xml:".toList, "yaml:".toList, "gorm:".toList]

/-- The embedded-code keyword markers (goshield.go:591-602). -/
def btCodeMarkers : List (List Char) :=
  ["function".toList, "await".toList, "async".toList, "const ".toList,
   "var ".toList, "let ".toList, "try \x7b".toList, "catch".toList,
   "return ".toList, "SELECT ".toList, "INSERT ".toList, "UPDATE ".toList]

/-- The three-strategy per-character encoding of a raw block
(goshield.go:611-622). -/
def encodeByteChar (g : Rng) (i : Nat) (c : Char) : SPart × Nat :=
  match g i % 3 with
  | 0 => (.strDec c.toNat, i + 1)
  | 1 => (.strHex c.toNat, i + 1)
  | _ =>
      if 32 ≤ c.toNat ∧ c.toNat < 127 ∧ c ≠ '"' ∧ c ≠ '\\' ∧ c ≠ '\'' then
        (.lit c, i + 1)
      else (.strDec c.toNat, i + 1)

/-- Encode every character of a raw block. -/
def encodeBytes (g : Rng) : Nat → List Char → List SPart × Nat
  | i, [] => ([], i)
  | i, c :: rest =>
      let p := encodeByteChar g i c
      let tl := encodeBytes g p.2 rest
      (p.1 :: tl.1, tl.2)

/-- The `ReplaceAllStringFunc` callback of the backtick pass
(goshield.go:577-627): skip short blocks, struct tags, and blocks that
do not sniff as embedded code; encode the rest. -/
def btCallback (g : Rng) (i : Nat) (inner : List Char) : List Char × Nat :=
  if utf8Len inner < 20 then ('`' :: inner ++ ['`'], i)
  else if btTagMarkers.any (fun t => containsSub t inner) then ('`' :: inner ++ ['`'], i)
  else if !(btCodeMarkers.any (fun t => containsSub t inner)) then ('`' :: inner ++ ['`'], i)
  else
    let ps := encodeBytes g i inner
    ('(' :: joinPlus (ps.1.map renderSPart) ++ [')'], ps.2)

/-- Leftmost non-overlapping matches of ``(?s)`[^`]+` `` over the whole
content, each replaced by the callback (fuel = content length). -/
def btScanAux (g : Rng) : Nat → Nat → List Char → List Char × Nat
  | _, i, [] => ([], i)
  | 0, i, l => (l, i)
  | fuel + 1, i, c :: rest =>
      if c = '`' then
        match rest.takeWhile (fun d => d != '`'), rest.dropWhile (fun d => d != '`') with
        | d :: ds, q :: r3 =>
            if q = '`' then
              let rep := btCallback g i (d :: ds)
              let tl := btScanAux g fuel rep.2 r3
              (rep.1 ++ tl.1, tl.2)
            else
              let tl := btScanAux g fuel i rest
              (c :: tl.1, tl.2)
        | _, _ =>
            let tl := btScanAux g fuel i rest
            (c :: tl.1, tl.2)
      else
        let tl := btScanAux g fuel i rest
        (c :: tl.1, tl.2)

/-- `obfuscateBacktickStrings` (goshield.go:569-633). -/
def obfuscateBacktickStrings (cfg : Config) (g : Rng) (i : Nat) (content : List Char) :
    List Char × Nat :=
  if cfg.noStrings then (content, i)
  else btScanAux g content.length i content

/-! ## The syntax tree model and the rename-engine passes
(goshield.go:286-563).

An identifier occurrence carries its text and whether the parser
resolved it to an object of kind `ast.Var` (`ident.Obj != nil &&
ident.Obj.Kind == ast.Var`); that resolution is front-end work, so it is
part of the input data. -/

/-- An `ast.Ident` occurrence. -/
structure AIdent where
  name : String
  objVar : Bool
deriving DecidableEq, Repr

/-- The expression forms the passes inspect: identifiers, selector
expressions, call expressions, and literals. -/
inductive AExpr where
  | ident (id : AIdent)
  | sel (x : AExpr) (fld : AIdent)
  | call (fn : AExpr) (args : List AExpr)
  | strLit (s : String)
  | intLit (n : Int)

/-- A struct field declaration: its names and its type expression. -/
structure AField where
  names : List AIdent
  ftype : AExpr

/-- The right-hand side of a `TypeSpec`. -/
inductive ATypeDef where
  | structDef (fields : List AField)
  | aliasDef (rhs : AExpr)

/-- A `TypeSpec` node. -/
structure ATypeSpec where
  name : AIdent
  tdef : ATypeDef

/-- An `ImportSpec` node: optional explicit alias and the quoted path
literal. -/
structure AImportSpec where
  iname : Option AIdent
  path : String
deriving DecidableEq, Repr

/-- A `ValueSpec` node (names and initializer expressions). -/
structure AValueSpec where
  names : List AIdent
  values : List AExpr

/-- A top-level declaration. -/
inductive ADecl where
  | importDecl (specs : List AImportSpec)
  | genDecl (isConst : Bool) (specs : List AValueSpec)
  | typeDecl (specs : List ATypeSpec)
  | funcDecl (fname : AIdent) (hasRecv : Bool) (body : List AExpr)

/-- An `ast.File`. -/
structure AFile where
  decls : List ADecl

/-- The import specs of a declaration list, in declaration order. -/
def impsOfDecls (ds : List ADecl) : List AImportSpec :=
  ds.flatMap fun d =>
    match d with
    | .importDecl specs => specs
    | _ => []

/-- The import specs of a file (its rendered import block). -/
def importSpecsOf (f : AFile) : List AImportSpec :=
  impsOfDecls f.decls

/-- All field names declared inside struct types (the **unfiltered**
local `fieldNameSet` of `obfuscateStructTypes`, goshield.go:440-452). -/
def structFieldNames (f : AFile) : List String :=
  f.decls.flatMap fun d =>
    match d with
    | .typeDecl specs =>
        specs.flatMap fun ts =>
          match ts.tdef with
          | .structDef fields => fields.flatMap fun fl => fl.names.map AIdent.name
          | .aliasDef _ => []
    | _ => []

/-- `collectStructFields` (goshield.go:346-361): field names excluding
reserved names. -/
def collectStructFieldNames (f : AFile) : List String :=
  (structFieldNames f).filter fun n => !reservedNames.contains n

/-- `collectDeclaredFunctions` (goshield.go:327-344): top-level function
and method names, excluding `main` and `init`; split by presence of a
receiver. -/
def collectFuncs (f : AFile) : List String × List String :=
  (f.decls.flatMap fun d =>
    match d with
    | .funcDecl fn false _ =>
        if fn.name = "main" ∨ fn.name = "init" then [] else [fn.name]
    | _ => [],
   f.decls.flatMap fun d =>
    match d with
    | .funcDecl fn true _ =>
        if fn.name = "main" ∨ fn.name = "init" then [] else [fn.name]
    | _ => [])

/-- The `TypeSpec` summaries consumed by `collectStructTypes`, in
declaration order. -/
def typeSpecsLite (f : AFile) : List TypeSpecM :=
  f.decls.flatMap fun d =>
    match d with
    | .typeDecl specs =>
        specs.map fun ts =>
          ⟨ts.name.name, match ts.tdef with
            | .structDef _ => true
            | .aliasDef _ => false⟩
    | _ => []

/-- Package-level variable names (`obfuscateVariables`,
goshield.go:477-494): names of `var` declaration groups, excluding `_`
and reserved names. -/
def packageVarsOf (f : AFile) : List String :=
  f.decls.flatMap fun d =>
    match d with
    | .genDecl false specs =>
        specs.flatMap fun vs =>
          (vs.names.map AIdent.name).filter fun n =>
            !(n = "_") && !reservedNames.contains n
    | _ => []

/-- `obfuscateConsts` (goshield.go:387-395): every `const` group becomes
a `var` group. -/
def obfuscateConsts (f : AFile) : AFile :=
  ⟨f.decls.map fun d =>
    match d with
    | .genDecl true specs => .genDecl false specs
    | other => other⟩

/-! ### Import aliasing (`obfuscateImports`, goshield.go:397-419) -/

/-- Split on a separator character (`strings.Split`). -/
def splitOnChar (sep : Char) : List Char → List (List Char)
  | [] => [[]]
  | c :: rest =>
      if c = sep then [] :: splitOnChar sep rest
      else
        match splitOnChar sep rest with
        | l :: ls => (c :: l) :: ls
        | [] => [[c]]

/-- `strings.Trim(pathValue, "\"")`. -/
def trimQuotes (s : String) : String :=
  String.mk (((s.toList.dropWhile (· = '"')).reverse.dropWhile (· = '"')).reverse)

/-- The last `/`-separated segment of an import path. -/
def lastSegment (path : String) : String :=
  String.mk ((splitOnChar '/' path.toList).getLastD [])

/-- The base name an import is keyed by. -/
def baseOf (sp : AImportSpec) : String :=
  lastSegment (trimQuotes sp.path)

/-- Go map assignment (insert or overwrite). -/
def setAssoc (m : NameMap) (k v : String) : NameMap :=
  match m with
  | [] => [(k, v)]
  | p :: rest => if p.1 = k then (k, v) :: rest else p :: setAssoc rest k v

/-- The spec loop of `obfuscateImports` (goshield.go:406-417): for
each import, derive the path's base name, allocate an alias through
`getObfuscatedName` (memoized in the global `nameMap` keyed **only** by
the base name), record base→alias in `importAliases`, and attach the
alias to the import. -/
def obfImportSpecs (g : Rng) (fuel : Nat) :
    List AImportSpec → NameMap → NameMap → Nat →
      Option (List AImportSpec × NameMap × NameMap × Nat)
  | [], nm, al, ix => some ([], nm, al, ix)
  | sp :: rest, nm, al, ix =>
      match getObfuscatedName g fuel ix nm (baseOf sp) with
      | none => none
      | some r =>
          match obfImportSpecs g fuel rest r.2.1 (setAssoc al (baseOf sp) r.1) r.2.2 with
          | none => none
          | some (rest', nm', al', ix') =>
              some (⟨some ⟨r.1, false⟩, sp.path⟩ :: rest', nm', al', ix')

/-- The decl loop of `obfuscateImports` (goshield.go:401-418). -/
def obfImportDecls (g : Rng) (fuel : Nat) :
    List ADecl → NameMap → NameMap → Nat →
      Option (List ADecl × NameMap × NameMap × Nat)
  | [], nm, al, ix => some ([], nm, al, ix)
  | .importDecl specs :: rest, nm, al, ix =>
      match obfImportSpecs g fuel specs nm al ix with
      | none => none
      | some (specs', nm', al', ix') =>
          match obfImportDecls g fuel rest nm' al' ix' with
          | none => none
          | some (rest', nm'', al'', ix'') =>
              some (.importDecl specs' :: rest', nm'', al'', ix'')
  | d :: rest, nm, al, ix =>
      match obfImportDecls g fuel rest nm al ix with
      | none => none
      | some (rest', nm', al', ix') => some (d :: rest', nm', al', ix')

/-- `obfuscateImports` (goshield.go:397-419): a no-op when `-no-imports`
is set. -/
def obfuscateImports (cfg : Config) (g : Rng) (fuel : Nat) (f : AFile)
    (nm al : NameMap) (ix : Nat) : Option (AFile × NameMap × NameMap × Nat) :=
  if cfg.noImports then some (f, nm, al, ix)
  else
    match obfImportDecls g fuel f.decls nm al ix with
    | none => none
    | some (decls', nm', al', ix') => some (⟨decls'⟩, nm', al', ix')

/-! ### Import-reference rewriting (`updateImportReferences`,
goshield.go:421-437) -/

mutual

/-- Rewrite the qualifier of every selector expression whose qualifier
identifier is a recorded import base. -/
def updRefsExpr (al : NameMap) : AExpr → AExpr
  | .ident id => .ident id
  | .sel x fld =>
      match x with
      | .ident id =>
          match lookupName al id.name with
          | some a => .sel (.ident ⟨a, id.objVar⟩) fld
          | none => .sel (.ident id) fld
      | other => .sel (updRefsExpr al other) fld
  | .call fn args => .call (updRefsExpr al fn) (updRefsList al args)
  | .strLit s => .strLit s
  | .intLit n => .intLit n

/-- `updRefsExpr` over an argument list. -/
def updRefsList (al : NameMap) : List AExpr → List AExpr
  | [] => []
  | e :: es => updRefsExpr al e :: updRefsList al es

end

/-- `updRefsExpr` over a declaration. -/
def updRefsDecl (al : NameMap) : ADecl → ADecl
  | .importDecl specs => .importDecl specs
  | .genDecl c specs =>
      .genDecl c (specs.map fun vs => ⟨vs.names, updRefsList al vs.values⟩)
  | .typeDecl specs =>
      .typeDecl (specs.map fun ts =>
        ⟨ts.name, match ts.tdef with
          | .structDef fields =>
              .structDef (fields.map fun fl => ⟨fl.names, updRefsExpr al fl.ftype⟩)
          | .aliasDef rhs => .aliasDef (updRefsExpr al rhs)⟩)
  | .funcDecl fname hasRecv body => .funcDecl fname hasRecv (updRefsList al body)

/-- `updateImportReferences` (goshield.go:421-437): a no-op when
`-no-imports` is set. -/
def updateImportReferences (cfg : Config) (al : NameMap) (f : AFile) : AFile :=
  if cfg.noImports then f else ⟨f.decls.map (updRefsDecl al)⟩

/-! ### Structural-type/alias rewriting (`obfuscateStructTypes`,
goshield.go:439-470): a uniform per-identifier rewrite applied to every
`ast.Ident` in the file. -/

/-- `rewriteTypeIdent` lifted to an identifier node. -/
def rwTypeId (fns : List String) (stm tam : NameMap) (id : AIdent) : AIdent :=
  ⟨rewriteTypeIdent fns stm tam id.name, id.objVar⟩

mutual

/-- Apply a per-identifier mapping to every identifier of an expression. -/
def mapIdExpr (h : AIdent → AIdent) : AExpr → AExpr
  | .ident id => .ident (h id)
  | .sel x fld => .sel (mapIdExpr h x) (h fld)
  | .call fn args => .call (mapIdExpr h fn) (mapIdList h args)
  | .strLit s => .strLit s
  | .intLit n => .intLit n

/-- `mapIdExpr` over a list. -/
def mapIdList (h : AIdent → AIdent) : List AExpr → List AExpr
  | [] => []
  | e :: es => mapIdExpr h e :: mapIdList h es

end

/-- Apply a per-identifier mapping to every identifier of a declaration
(`ast.Inspect` visits declaration-name, field-name, and import-alias
identifiers too). -/
def mapIdDecl (h : AIdent → AIdent) : ADecl → ADecl
  | .importDecl specs =>
      .importDecl (specs.map fun sp => ⟨sp.iname.map h, sp.path⟩)
  | .genDecl c specs =>
      .genDecl c (specs.map fun vs => ⟨vs.names.map h, mapIdList h vs.values⟩)
  | .typeDecl specs =>
      .typeDecl (specs.map fun ts =>
        ⟨h ts.name, match ts.tdef with
          | .structDef fields =>
              .structDef (fields.map fun fl => ⟨fl.names.map h, mapIdExpr h fl.ftype⟩)
          | .aliasDef rhs => .aliasDef (mapIdExpr h rhs)⟩)
  | .funcDecl fname hasRecv body => .funcDecl (h fname) hasRecv (mapIdList h body)

/-- `obfuscateStructTypes` (goshield.go:439-470): collect the unfiltered
field-name set, then rewrite every identifier through the two type maps. -/
def obfuscateStructTypes (f : AFile) (stm tam : NameMap) : AFile :=
  let fns := structFieldNames f
  ⟨f.decls.map (mapIdDecl (rwTypeId fns stm tam))⟩

/-! ### Variable rewriting (`obfuscateVariables`, goshield.go:472-516):
a stateful per-identifier action applied to every `ast.Ident`. -/

/-- A stateful per-identifier action threading the global `nameMap` and
the stream position; `none` models fuel exhaustion of the generator. -/
abbrev IdentAction := AIdent → NameMap → Nat → Option (AIdent × NameMap × Nat)

mutual

/-- Run an action on every identifier of an expression, in `ast.Inspect`
pre-order. -/
def actExpr (a : IdentAction) : AExpr → NameMap → Nat → Option (AExpr × NameMap × Nat)
  | .ident id, nm, ix =>
      match a id nm ix with
      | none => none
      | some (id', nm', ix') => some (.ident id', nm', ix')
  | .sel x fld, nm, ix =>
      match actExpr a x nm ix with
      | none => none
      | some (x', nm', ix') =>
          match a fld nm' ix' with
          | none => none
          | some (fld', nm'', ix'') => some (.sel x' fld', nm'', ix'')
  | .call fn args, nm, ix =>
      match actExpr a fn nm ix with
      | none => none
      | some (fn', nm', ix') =>
          match actList a args nm' ix' with
          | none => none
          | some (args', nm'', ix'') => some (.call fn' args', nm'', ix'')
  | .strLit s, nm, ix => some (.strLit s, nm, ix)
  | .intLit n, nm, ix => some (.intLit n, nm, ix)

/-- `actExpr` over a list. -/
def actList (a : IdentAction) : List AExpr → NameMap → Nat → Option (List AExpr × NameMap × Nat)
  | [], nm, ix => some ([], nm, ix)
  | e :: es, nm, ix =>
      match actExpr a e nm ix with
      | none => none
      | some (e', nm', ix') =>
          match actList a es nm' ix' with
          | none => none
          | some (es', nm'', ix'') => some (e' :: es', nm'', ix'')

end

/-- Run an action on a list of identifiers. -/
def actIdents (a : IdentAction) : List AIdent → NameMap → Nat → Option (List AIdent × NameMap × Nat)
  | [], nm, ix => some ([], nm, ix)
  | id :: ids, nm, ix =>
      match a id nm ix with
      | none => none
      | some (id', nm', ix') =>
          match actIdents a ids nm' ix' with
          | none => none
          | some (ids', nm'', ix'') => some (id' :: ids', nm'', ix'')

/-- Run an action on every identifier of an import spec. -/
def actImportSpec (a : IdentAction) (sp : AImportSpec) (nm : NameMap) (ix : Nat) :
    Option (AImportSpec × NameMap × Nat) :=
  match sp.iname with
  | none => some (sp, nm, ix)
  | some id =>
      match a id nm ix with
      | none => none
      | some (id', nm', ix') => some (⟨some id', sp.path⟩, nm', ix')

/-- Run an action on a list of import specs. -/
def actImpSpecs (a : IdentAction) :
    List AImportSpec → NameMap → Nat → Option (List AImportSpec × NameMap × Nat)
  | [], nm, ix => some ([], nm, ix)
  | sp :: sps, nm, ix =>
      match actImportSpec a sp nm ix with
      | none => none
      | some (sp', nm', ix') =>
          match actImpSpecs a sps nm' ix' with
          | none => none
          | some (sps', nm'', ix'') => some (sp' :: sps', nm'', ix'')

/-- Run an action on a list of value specs (names, then values). -/
def actValSpecs (a : IdentAction) :
    List AValueSpec → NameMap → Nat → Option (List AValueSpec × NameMap × Nat)
  | [], nm, ix => some ([], nm, ix)
  | vs :: vss, nm, ix =>
      match actIdents a vs.names nm ix with
      | none => none
      | some (names', nm', ix') =>
          match actList a vs.values nm' ix' with
          | none => none
          | some (values', nm'', ix'') =>
              match actValSpecs a vss nm'' ix'' with
              | none => none
              | some (vss', nm3, ix3) => some (⟨names', values'⟩ :: vss', nm3, ix3)

/-- Run an action on a list of struct fields (names, then type). -/
def actFieldsA (a : IdentAction) :
    List AField → NameMap → Nat → Option (List AField × NameMap × Nat)
  | [], nm, ix => some ([], nm, ix)
  | fl :: fls, nm, ix =>
      match actIdents a fl.names nm ix with
      | none => none
      | some (names', nm', ix') =>
          match actExpr a fl.ftype nm' ix' with
          | none => none
          | some (ftype', nm'', ix'') =>
              match actFieldsA a fls nm'' ix'' with
              | none => none
              | some (fls', nm3, ix3) => some (⟨names', ftype'⟩ :: fls', nm3, ix3)

/-- Run an action on a list of type specs (name, then definition). -/
def actTySpecs (a : IdentAction) :
    List ATypeSpec → NameMap → Nat → Option (List ATypeSpec × NameMap × Nat)
  | [], nm, ix => some ([], nm, ix)
  | ts :: tss, nm, ix =>
      match a ts.name nm ix with
      | none => none
      | some (name', nm', ix') =>
          match ts.tdef with
          | .structDef fields =>
              match actFieldsA a fields nm' ix' with
              | none => none
              | some (fields', nm'', ix'') =>
                  match actTySpecs a tss nm'' ix'' with
                  | none => none
                  | some (tss', nm3, ix3) =>
                      some (⟨name', .structDef fields'⟩ :: tss', nm3, ix3)
          | .aliasDef rhs =>
              match actExpr a rhs nm' ix' with
              | none => none
              | some (rhs', nm'', ix'') =>
                  match actTySpecs a tss nm'' ix'' with
                  | none => none
                  | some (tss', nm3, ix3) =>
                      some (⟨name', .aliasDef rhs'⟩ :: tss', nm3, ix3)

/-- Run an action on every identifier of a declaration. -/
def actDecl (a : IdentAction) : ADecl → NameMap → Nat → Option (ADecl × NameMap × Nat)
  | .importDecl specs, nm, ix =>
      match actImpSpecs a specs nm ix with
      | none => none
      | some (specs', nm', ix') => some (.importDecl specs', nm', ix')
  | .genDecl c specs, nm, ix =>
      match actValSpecs a specs nm ix with
      | none => none
      | some (specs', nm', ix') => some (.genDecl c specs', nm', ix')
  | .typeDecl specs, nm, ix =>
      match actTySpecs a specs nm ix with
      | none => none
      | some (specs', nm', ix') => some (.typeDecl specs', nm', ix')
  | .funcDecl fname hasRecv body, nm, ix =>
      match a fname nm ix with
      | none => none
      | some (fname', nm', ix') =>
          match actList a body nm' ix' with
          | none => none
          | some (body', nm'', ix'') => some (.funcDecl fname' hasRecv body', nm'', ix'')

/-- Run an action over a declaration list. -/
def actDeclList (a : IdentAction) :
    List ADecl → NameMap → Nat → Option (List ADecl × NameMap × Nat)
  | [], nm, ix => some ([], nm, ix)
  | d :: ds, nm, ix =>
      match actDecl a d nm ix with
      | none => none
      | some (d', nm', ix') =>
          match actDeclList a ds nm' ix' with
          | none => none
          | some (ds', nm'', ix'') => some (d' :: ds', nm'', ix'')

/-- Run an action on every identifier of a file. -/
def actFile (a : IdentAction) (f : AFile) (nm : NameMap) (ix : Nat) :
    Option (AFile × NameMap × Nat) :=
  match actDeclList a f.decls nm ix with
  | none => none
  | some (decls', nm', ix') => some (⟨decls'⟩, nm', ix')

/-- The per-identifier body of `obfuscateVariables`
(goshield.go:496-515). -/
def varAction (structTypesSet structFieldsSet : List String) (tam : NameMap)
    (packageVars : List String) (g : Rng) (fuel : Nat) : IdentAction :=
  fun id nm ix =>
    if reservedNames.contains id.name || structTypesSet.contains id.name
        || structFieldsSet.contains id.name then some (id, nm, ix)
    else if (lookupName tam id.name).isSome then some (id, nm, ix)
    else if packageVars.contains id.name then
      match getObfuscatedName g fuel ix nm id.name with
      | none => none
      | some r => some (⟨r.1, id.objVar⟩, r.2.1, r.2.2)
    else if id.objVar && !(id.name = "_") then
      match getObfuscatedName g fuel ix nm id.name with
      | none => none
      | some r => some (⟨r.1, id.objVar⟩, r.2.1, r.2.2)
    else some (id, nm, ix)

/-- `obfuscateVariables` (goshield.go:472-516): a no-op when `-no-vars`
is set; otherwise collect the package-level variable names and run the
per-identifier action over the whole file. -/
def obfuscateVariables (cfg : Config) (g : Rng) (fuel : Nat) (f : AFile)
    (structTypesSet structFieldsSet : List String) (tam : NameMap)
    (nm : NameMap) (ix : Nat) : Option (AFile × NameMap × Nat) :=
  if cfg.noVars then some (f, nm, ix)
  else actFile (varAction structTypesSet structFieldsSet tam (packageVarsOf f) g fuel) f nm ix

/-! ### Function/method rewriting (`obfuscateFunctions`,
goshield.go:518-563): three traversals. -/

/-- First traversal (goshield.go:523-533): rename the declaration name
of every function/method in the collected sets. -/
def renameFuncDecls (g : Rng) (fuel : Nat) (funcs methods : List String) :
    List ADecl → NameMap → Nat → Option (List ADecl × NameMap × Nat)
  | [], nm, ix => some ([], nm, ix)
  | .funcDecl fname hasRecv body :: rest, nm, ix =>
      if funcs.contains fname.name || methods.contains fname.name then
        match getObfuscatedName g fuel ix nm fname.name with
        | none => none
        | some r =>
            match renameFuncDecls g fuel funcs methods rest r.2.1 r.2.2 with
            | none => none
            | some (rest', nm', ix') =>
                some (.funcDecl ⟨r.1, fname.objVar⟩ hasRecv body :: rest', nm', ix')
      else
        match renameFuncDecls g fuel funcs methods rest nm ix with
        | none => none
        | some (rest', nm', ix') =>
            some (.funcDecl fname hasRecv body :: rest', nm', ix')
  | d :: rest, nm, ix =>
      match renameFuncDecls g fuel funcs methods rest nm ix with
      | none => none
      | some (rest', nm', ix') => some (d :: rest', nm', ix')

/-- Rename a callee identifier in the function set
(goshield.go:540-544). -/
def callIdentRewrite (g : Rng) (fuel : Nat) (funcs : List String)
    (id : AIdent) (nm : NameMap) (ix : Nat) : Option (AIdent × NameMap × Nat) :=
  if funcs.contains id.name then
    match getObfuscatedName g fuel ix nm id.name with
    | none => none
    | some r => some (⟨r.1, id.objVar⟩, r.2.1, r.2.2)
  else some (id, nm, ix)

/-- Rename a callee-selector member in the method set
(goshield.go:545-549). -/
def callSelRewrite (g : Rng) (fuel : Nat) (methods : List String)
    (sl : AIdent) (nm : NameMap) (ix : Nat) : Option (AIdent × NameMap × Nat) :=
  if methods.contains sl.name then
    match getObfuscatedName g fuel ix nm sl.name with
    | none => none
    | some r => some (⟨r.1, sl.objVar⟩, r.2.1, r.2.2)
  else some (sl, nm, ix)

mutual

/-- Second traversal over an expression (goshield.go:535-551): visit
every call node (pre-order), rewriting an identifier callee in the
function set or a selector callee whose member is in the method set,
then recurse into the callee's sub-expressions and the arguments.  (The
subsequent visit of an already rewritten callee identifier or selector
member performs no further action, so it is not re-dispatched.) -/
def callsExpr (g : Rng) (fuel : Nat) (funcs methods : List String) :
    AExpr → NameMap → Nat → Option (AExpr × NameMap × Nat)
  | .call (.ident id) args, nm, ix =>
      match callIdentRewrite g fuel funcs id nm ix with
      | none => none
      | some (id', nm1, ix1) =>
          match callsList g fuel funcs methods args nm1 ix1 with
          | none => none
          | some (args', nm2, ix2) => some (.call (.ident id') args', nm2, ix2)
  | .call (.sel x sl) args, nm, ix =>
      match callSelRewrite g fuel methods sl nm ix with
      | none => none
      | some (sl', nm1, ix1) =>
          match callsExpr g fuel funcs methods x nm1 ix1 with
          | none => none
          | some (x', nm2, ix2) =>
              match callsList g fuel funcs methods args nm2 ix2 with
              | none => none
              | some (args', nm3, ix3) => some (.call (.sel x' sl') args', nm3, ix3)
  | .call fn args, nm, ix =>
      match callsExpr g fuel funcs methods fn nm ix with
      | none => none
      | some (fn', nm', ix') =>
          match callsList g fuel funcs methods args nm' ix' with
          | none => none
          | some (args', nm'', ix'') => some (.call fn' args', nm'', ix'')
  | .sel x fld, nm, ix =>
      match callsExpr g fuel funcs methods x nm ix with
      | none => none
      | some (x', nm', ix') => some (.sel x' fld, nm', ix')
  | .ident id, nm, ix => some (.ident id, nm, ix)
  | .strLit s, nm, ix => some (.strLit s, nm, ix)
  | .intLit n, nm, ix => some (.intLit n, nm, ix)

/-- `callsExpr` over a list. -/
def callsList (g : Rng) (fuel : Nat) (funcs methods : List String) :
    List AExpr → NameMap → Nat → Option (List AExpr × NameMap × Nat)
  | [], nm, ix => some ([], nm, ix)
  | e :: es, nm, ix =>
      match callsExpr g fuel funcs methods e nm ix with
      | none => none
      | some (e', nm', ix') =>
          match callsList g fuel funcs methods es nm' ix' with
          | none => none
          | some (es', nm'', ix'') => some (e' :: es', nm'', ix'')

end

mutual

/-- Third traversal over an expression (goshield.go:553-562): visit
every selector node, rewriting its member when it is in the method set
and not spelled like a struct field, then recurse. -/
def selsExpr (g : Rng) (fuel : Nat) (methods fields : List String) :
    AExpr → NameMap → Nat → Option (AExpr × NameMap × Nat)
  | .sel x fld, nm, ix =>
      if methods.contains fld.name && !fields.contains fld.name then
        match getObfuscatedName g fuel ix nm fld.name with
        | none => none
        | some r =>
            match selsExpr g fuel methods fields x r.2.1 r.2.2 with
            | none => none
            | some (x', nm', ix') => some (.sel x' ⟨r.1, fld.objVar⟩, nm', ix')
      else
        match selsExpr g fuel methods fields x nm ix with
        | none => none
        | some (x', nm', ix') => some (.sel x' fld, nm', ix')
  | .call fn args, nm, ix =>
      match selsExpr g fuel methods fields fn nm ix with
      | none => none
      | some (fn', nm', ix') =>
          match selsList g fuel methods fields args nm' ix' with
          | none => none
          | some (args', nm'', ix'') => some (.call fn' args', nm'', ix'')
  | .ident id, nm, ix => some (.ident id, nm, ix)
  | .strLit s, nm, ix => some (.strLit s, nm, ix)
  | .intLit n, nm, ix => some (.intLit n, nm, ix)

/-- `selsExpr` over a list. -/
def selsList (g : Rng) (fuel : Nat) (methods fields : List String) :
    List AExpr → NameMap → Nat → Option (List AExpr × NameMap × Nat)
  | [], nm, ix => some ([], nm, ix)
  | e :: es, nm, ix =>
      match selsExpr g fuel methods fields e nm ix with
      | none => none
      | some (e', nm', ix') =>
          match selsList g fuel methods fields es nm' ix' with
          | none => none
          | some (es', nm'', ix'') => some (e' :: es', nm'', ix'')

end

/-- Apply a stateful expression transformation to a list of
expressions. -/
def epExprList (t : AExpr → NameMap → Nat → Option (AExpr × NameMap × Nat)) :
    List AExpr → NameMap → Nat → Option (List AExpr × NameMap × Nat)
  | [], nm, ix => some ([], nm, ix)
  | e :: es, nm, ix =>
      match t e nm ix with
      | none => none
      | some (e', nm', ix') =>
          match epExprList t es nm' ix' with
          | none => none
          | some (es', nm'', ix'') => some (e' :: es', nm'', ix'')

/-- Apply a stateful expression transformation to value specs. -/
def epValSpecs (t : AExpr → NameMap → Nat → Option (AExpr × NameMap × Nat)) :
    List AValueSpec → NameMap → Nat → Option (List AValueSpec × NameMap × Nat)
  | [], nm, ix => some ([], nm, ix)
  | vs :: vss, nm, ix =>
      match epExprList t vs.values nm ix with
      | none => none
      | some (values', nm', ix') =>
          match epValSpecs t vss nm' ix' with
          | none => none
          | some (vss', nm'', ix'') => some (⟨vs.names, values'⟩ :: vss', nm'', ix'')

/-- Apply a stateful expression transformation to struct fields. -/
def epFields (t : AExpr → NameMap → Nat → Option (AExpr × NameMap × Nat)) :
    List AField → NameMap → Nat → Option (List AField × NameMap × Nat)
  | [], nm, ix => some ([], nm, ix)
  | fl :: fls, nm, ix =>
      match t fl.ftype nm ix with
      | none => none
      | some (ftype', nm', ix') =>
          match epFields t fls nm' ix' with
          | none => none
          | some (fls', nm'', ix'') => some (⟨fl.names, ftype'⟩ :: fls', nm'', ix'')

/-- Apply a stateful expression transformation to type specs. -/
def epTySpecs (t : AExpr → NameMap → Nat → Option (AExpr × NameMap × Nat)) :
    List ATypeSpec → NameMap → Nat → Option (List ATypeSpec × NameMap × Nat)
  | [], nm, ix => some ([], nm, ix)
  | ts :: tss, nm, ix =>
      match ts.tdef with
      | .structDef fields =>
          match epFields t fields nm ix with
          | none => none
          | some (fields', nm', ix') =>
              match epTySpecs t tss nm' ix' with
              | none => none
              | some (tss', nm'', ix'') =>
                  some (⟨ts.name, .structDef fields'⟩ :: tss', nm'', ix'')
      | .aliasDef rhs =>
          match t rhs nm ix with
          | none => none
          | some (rhs', nm', ix') =>
              match epTySpecs t tss nm' ix' with
              | none => none
              | some (tss', nm'', ix'') =>
                  some (⟨ts.name, .aliasDef rhs'⟩ :: tss', nm'', ix'')

/-- Apply a stateful expression transformation to every expression of
a declaration (call and selector nodes occur only inside expressions,
so import declarations are untouched). -/
def exprPassDecl
    (t : AExpr → NameMap → Nat → Option (AExpr × NameMap × Nat)) :
    ADecl → NameMap → Nat → Option (ADecl × NameMap × Nat)
  | .importDecl specs, nm, ix => some (.importDecl specs, nm, ix)
  | .genDecl c specs, nm, ix =>
      match epValSpecs t specs nm ix with
      | none => none
      | some (specs', nm', ix') => some (.genDecl c specs', nm', ix')
  | .typeDecl specs, nm, ix =>
      match epTySpecs t specs nm ix with
      | none => none
      | some (specs', nm', ix') => some (.typeDecl specs', nm', ix')
  | .funcDecl fname hasRecv body, nm, ix =>
      match epExprList t body nm ix with
      | none => none
      | some (body', nm', ix') => some (.funcDecl fname hasRecv body', nm', ix')

/-- `exprPassDecl` over a declaration list. -/
def epDeclList (t : AExpr → NameMap → Nat → Option (AExpr × NameMap × Nat)) :
    List ADecl → NameMap → Nat → Option (List ADecl × NameMap × Nat)
  | [], nm, ix => some ([], nm, ix)
  | d :: ds, nm, ix =>
      match exprPassDecl t d nm ix with
      | none => none
      | some (d', nm', ix') =>
          match epDeclList t ds nm' ix' with
          | none => none
          | some (ds', nm'', ix'') => some (d' :: ds', nm'', ix'')

/-- Apply a stateful expression transformation to every expression of a
file. -/
def exprPassFile
    (t : AExpr → NameMap → Nat → Option (AExpr × NameMap × Nat))
    (f : AFile) (nm : NameMap) (ix : Nat) : Option (AFile × NameMap × Nat) :=
  match epDeclList t f.decls nm ix with
  | none => none
  | some (decls', nm', ix') => some (⟨decls'⟩, nm', ix')

/-- `obfuscateFunctions` (goshield.go:518-563): a no-op when
`-no-functions` is set; otherwise the three traversals in order. -/
def obfuscateFunctions (cfg : Config) (g : Rng) (fuel : Nat) (f : AFile)
    (funcs methods fields : List String) (nm : NameMap) (ix : Nat) :
    Option (AFile × NameMap × Nat) :=
  if cfg.noFunctions then some (f, nm, ix)
  else
    match renameFuncDecls g fuel funcs methods f.decls nm ix with
    | none => none
    | some (decls1, nm1, ix1) =>
        match exprPassFile (callsExpr g fuel funcs methods) ⟨decls1⟩ nm1 ix1 with
        | none => none
        | some (f2, nm2, ix2) =>
            match exprPassFile (selsExpr g fuel methods fields) f2 nm2 ix2 with
            | none => none
            | some (f3, nm3, ix3) => some (f3, nm3, ix3)

/-- The whole AST pipeline as driven by `main` (goshield.go:806-820):
the collection passes, then consts, imports, import references,
structural types, variables, functions. -/
def runAstPipeline (cfg : Config) (g : Rng) (fuel : Nat) (f : AFile) :
    Option (AFile × NameMap × Nat) :=
  let fm := collectFuncs f
  let structFieldsSet := collectStructFieldNames f
  match collectStructTypes g fuel (typeSpecsLite f) ⟨[], [], [], [], 0⟩ with
  | none => none
  | some ts =>
      let f1 := obfuscateConsts f
      match obfuscateImports cfg g fuel f1 ts.nameMap [] ts.rngIx with
      | none => none
      | some (f2, nm2, al2, ix2) =>
          let f3 := updateImportReferences cfg al2 f2
          let f4 := obfuscateStructTypes f3 ts.structTypeMapping ts.typeAliasMapping
          match obfuscateVariables cfg g fuel f4 ts.structTypes structFieldsSet
              ts.typeAliasMapping nm2 ix2 with
          | none => none
          | some (f5, nm5, ix5) =>
              obfuscateFunctions cfg g fuel f5 fm.1 fm.2 structFieldsSet nm5 ix5

theorem skipRun_len (p : Char → Bool) :
    ∀ l : List Char, (skipRun p l).1 + (skipRun p l).2.length = l.length := by
  intro l
  induction l with
  | nil => simp [skipRun]
  | cons c cs ih =>
      by_cases h : p c
      · simp [skipRun, h] at ih ⊢; omega
      · simp [skipRun, h]

theorem precLen_len (l : List Char) :
    (precLen l).1 + (precLen l).2.length = l.length := by
  unfold precLen
  split
  · rename_i r
    have h := skipRun_len isDigitChar r
    by_cases hk : (skipRun isDigitChar r).1 = 0
    · simp [hk]
    · simp [hk]; omega
  · simp

theorem specLen_pos {l : List Char} {n : Nat} (h : specLen l = some n) :
    1 ≤ n ∧ n ≤ l.length := by
  match l with
  | [] => simp [specLen] at h
  | c :: rest =>
      by_cases hc : c = '%'
      · have h1 := skipRun_len isFlagChar rest
        have h2 := skipRun_len isDigitChar (skipRun isFlagChar rest).2
        have h3 := precLen_len (skipRun isDigitChar (skipRun isFlagChar rest).2).2
        simp only [specLen, hc, if_true] at h
        match hm : (precLen (skipRun isDigitChar (skipRun isFlagChar rest).2).2).2 with
        | c2 :: rr =>
            simp only [hm] at h
            by_cases hcv : isConvChar c2
            · rw [if_pos hcv] at h
              have hn := Option.some.inj h
              have hlen : (precLen (skipRun isDigitChar (skipRun isFlagChar rest).2).2).2.length
                  = rr.length + 1 := by rw [hm]; simp
              simp only [List.length_cons]
              omega
            · rw [if_neg hcv] at h
              exact absurd h (by simp)
        | [] => simp only [hm] at h; exact absurd h (by simp)
      · simp [specLen, hc] at h

theorem findSpecsAux_nil (f : Nat) (pos : Nat) : findSpecsAux f [] pos = [] := by
  cases f <;> simp [findSpecsAux]

theorem findSpecsAux_congr :
    ∀ f f' : Nat, ∀ l : List Char, ∀ pos : Nat, l.length ≤ f → l.length ≤ f' →
      findSpecsAux f l pos = findSpecsAux f' l pos := by
  intro f
  induction f with
  | zero =>
      intro f' l pos hf _
      have : l = [] := List.length_eq_zero.mp (Nat.le_zero.mp hf)
      subst this
      simp [findSpecsAux, findSpecsAux_nil]
  | succ a ih =>
      intro f' l pos hf hf'
      match l with
      | [] => simp [findSpecsAux_nil]
      | c :: rest =>
          match f' with
          | 0 => simp at hf'
          | b + 1 =>
              simp only [findSpecsAux]
              match hsp : specLen (c :: rest) with
              | some n =>
                  have hn := specLen_pos hsp
                  simp only [List.length_cons] at hf hf'
                  have hd : ((c :: rest).drop n).length ≤ a := by
                    simp only [List.length_drop, List.length_cons]; omega
                  have hd' : ((c :: rest).drop n).length ≤ b := by
                    simp only [List.length_drop, List.length_cons]; omega
                  exact congrArg (fun t => (pos, pos + n) :: t) (ih b _ _ hd hd')
              | none =>
                  simp only [List.length_cons] at hf hf'
                  exact ih b rest (pos + 1) (by omega) (by omega)

theorem findSpecs_cons (c : Char) (rest : List Char) (pos : Nat) :
    findSpecs (c :: rest) pos =
      match specLen (c :: rest) with
      | some n => (pos, pos + n) :: findSpecs ((c :: rest).drop n) (pos + n)
      | none => findSpecs rest (pos + 1) := by
  unfold findSpecs
  simp only [List.length_cons, findSpecsAux]
  match hsp : specLen (c :: rest) with
  | some n =>
      have hn := specLen_pos hsp
      simp only [List.length_cons] at hn
      exact congrArg _ (findSpecsAux_congr rest.length ((c :: rest).drop n).length _ _
        (by simp only [List.length_drop, List.length_cons]; omega) (le_refl _))
  | none => rfl

theorem chained_weaken {len lo lo' : Nat} {ms : List (Nat × Nat)}
    (h : Chained len lo ms) (hle : lo' ≤ lo) : Chained len lo' ms := by
  match ms with
  | [] => trivial
  | (st, en) :: ms' =>
      obtain ⟨h1, h2, h3, h4⟩ := h
      exact ⟨by omega, h2, h3, h4⟩

theorem findSpecs_chained :
    ∀ fuel : Nat, ∀ l : List Char, ∀ pos : Nat, l.length ≤ fuel →
      Chained (pos + l.length) pos (findSpecs l pos) := by
  intro fuel
  induction fuel with
  | zero =>
      intro l pos hf
      have : l = [] := List.length_eq_zero.mp (Nat.le_zero.mp hf)
      subst this
      simp [findSpecs, findSpecsAux_nil, Chained]
  | succ a ih =>
      intro l pos hf
      match l with
      | [] => simp [findSpecs, findSpecsAux_nil, Chained]
      | c :: rest =>
          rw [findSpecs_cons]
          match hsp : specLen (c :: rest) with
          | some n =>
              have hn := specLen_pos hsp
              simp only [List.length_cons] at hn hf ⊢
              have hdl : ((c :: rest).drop n).length = rest.length + 1 - n := by
                simp [List.length_drop]
              have hrec := ih ((c :: rest).drop n) (pos + n) (by omega)
              rw [hdl] at hrec
              refine ⟨le_refl _, by omega, by omega, ?_⟩
              have : pos + n + (rest.length + 1 - n) = pos + (rest.length + 1) := by omega
              rwa [this] at hrec
          | none =>
              have hrec := ih rest (pos + 1) (by simp at hf; omega)
              have heq : pos + 1 + rest.length = pos + (c :: rest).length := by
                simp; omega
              rw [heq] at hrec
              exact chained_weaken hrec (by omega)

theorem encodeChar_evalChar (g : Rng) (i : Nat) (r : Char) :
    ((encodeChar g i r).1).evalChar = r := by
  unfold encodeChar
  have h4 : g i % 4 = 0 ∨ g i % 4 = 1 ∨ g i % 4 = 2 ∨ g i % 4 = 3 := by omega
  rcases h4 with h | h | h | h <;> rw [h]
  · simp [SPart.evalChar, Char.ofNat_toNat]
  · simp [SPart.evalChar, Char.ofNat_toNat]
  · simp only [SPart.evalChar]
    have harith : ((r.toNat : Int) - (g (i + 1) % 50 + 1 : Nat) + (g (i + 1) % 50 + 1 : Nat))
        = (r.toNat : Int) := by ring
    rw [harith, Int.toNat_natCast, Char.ofNat_toNat]
  · by_cases hq : r = '"' ∨ r = '\\' ∨ r.toNat > 127
    · simp [hq, SPart.evalChar, Char.ofNat_toNat]
    · by_cases hp : 32 ≤ r.toNat ∧ r.toNat < 127
      · simp [hq, hp, SPart.evalChar]
      · simp [hq, hp, SPart.evalChar, Char.ofNat_toNat]

theorem stringLiteral_eval (g : Rng) (i : Nat) (s : List Char) :
    ((obfuscateStringLiteral g i s).1).map SPart.evalChar = s := by
  induction s generalizing i with
  | nil => simp [obfuscateStringLiteral]
  | cons c rest ih => simp [obfuscateStringLiteral, encodeChar_evalChar, ih]

/-- C1: for every input string `s` (and every state of the random
stream), the expression produced by `obfuscateStringLiteral` evaluates
to exactly `s`: the empty string yields no terms (the unchanged
empty-string literal), and each character of a non-empty `s` is encoded
by one term — decimal `string(c)`, hexadecimal `string(0xc)`,
additive-offset `string((c-k)+k)`, or a quoted literal character with
numeric fallback for quote, backslash, and non-printable characters —
that evaluates to that character, the terms being concatenated in
order. -/
theorem obfuscateStringLiteral_round_trip (g : Rng) (i : Nat) (s : List Char) :
    ((obfuscateStringLiteral g i s).1).map SPart.evalChar = s :=
  stringLiteral_eval g i s

theorem drop_take_append_drop (s : List Char) (a b : Nat) (hab : a ≤ b) :
    (s.drop a).take (b - a) ++ s.drop b = s.drop a := by
  have h1 : s.drop b = (s.drop a).drop (b - a) := by
    rw [List.drop_drop]
    congr 1
    omega
  rw [h1, List.take_append_drop]

theorem buildSegs_passthrough (g : Rng) (s : List Char) :
    ∀ ms : List (Nat × Nat), ∀ i lastEnd : Nat,
      ((buildSegs g s i lastEnd ms).1.filterMap FSeg.passthrough)
        = ms.map (fun m => (s.drop m.1).take (m.2 - m.1)) := by
  intro ms
  induction ms with
  | nil =>
      intro i lastEnd
      by_cases h : lastEnd < s.length <;> simp [buildSegs, h, FSeg.passthrough]
  | cons m ms ih =>
      intro i lastEnd
      obtain ⟨st, en⟩ := m
      by_cases h : lastEnd < st <;>
        simp [buildSegs, h, FSeg.passthrough, List.filterMap_append, ih]

theorem buildSegs_eval (g : Rng) (s : List Char) :
    ∀ ms : List (Nat × Nat), ∀ i lastEnd : Nat, Chained s.length lastEnd ms →
      ((buildSegs g s i lastEnd ms).1.map FSeg.evalStr).flatten = s.drop lastEnd := by
  intro ms
  induction ms with
  | nil =>
      intro i lastEnd _
      by_cases h : lastEnd < s.length
      · simp [buildSegs, h, FSeg.evalStr, stringLiteral_eval]
      · have : s.drop lastEnd = [] := List.drop_eq_nil_of_le (by omega)
        simp [buildSegs, h, this]
  | cons m ms ih =>
      intro i lastEnd hch
      obtain ⟨st, en⟩ := m
      obtain ⟨h1, h2, h3, h4⟩ := hch
      by_cases h : lastEnd < st
      · simp only [buildSegs, if_pos h, List.map_append, List.map_cons,
          List.flatten_append, List.flatten_cons, FSeg.evalStr, List.map_nil,
          List.flatten_nil, stringLiteral_eval, List.append_nil]
        rw [ih _ en h4]
        rw [drop_take_append_drop s st en (by omega),
          drop_take_append_drop s lastEnd st (by omega)]
      · have hst : lastEnd = st := by omega
        subst hst
        simp only [buildSegs, if_neg h, List.nil_append, List.map_cons,
          List.flatten_cons, FSeg.evalStr]
        rw [ih _ en h4]
        have : lastEnd - lastEnd = 0 := by omega
        rw [this] at *
        rw [drop_take_append_drop s lastEnd en (by omega)]

/-- C5: for every template string `s` containing at least one
recognized format specifier, the expression produced by
`obfuscateFormatString` passes each specifier through verbatim: its
literal passthrough segments, in order, are exactly the specifier
tokens of `s` at their matched positions, and the whole expression
evaluates to `s` (only the text between specifiers is
character-split-encoded). -/
theorem obfuscateFormatString_specifier_preservation (g : Rng) (i : Nat) (s : List Char)
    (hne : findSpecs s 0 ≠ []) :
    ((obfuscateFormatString g i s).1.filterMap FSeg.passthrough)
        = (findSpecs s 0).map (fun m => (s.drop m.1).take (m.2 - m.1))
      ∧ ((obfuscateFormatString g i s).1.map FSeg.evalStr).flatten = s := by
  unfold obfuscateFormatString
  match hms : findSpecs s 0 with
  | [] => exact absurd hms hne
  | m :: ms =>
      have hch : Chained s.length 0 (m :: ms) := by
        have h := findSpecs_chained s.length s 0 (le_refl _)
        rw [hms] at h
        simpa using h
      refine ⟨?_, ?_⟩
      · rw [buildSegs_passthrough]
      · have h := buildSegs_eval g s (m :: ms) i 0 hch
        simpa using h

/-- Witness for C5 at the concrete template `"x%d"` with the constant-0
stream. -/
theorem obfuscateFormatString_specifier_preservation_witness :
    findSpecs ['x', '%', 'd'] 0 ≠ [] ∧
      (((obfuscateFormatString (fun _ => 0) 0 ['x', '%', 'd']).1.filterMap FSeg.passthrough)
          = (findSpecs ['x', '%', 'd'] 0).map
              (fun m => ((['x', '%', 'd'] : List Char).drop m.1).take (m.2 - m.1))
        ∧ ((obfuscateFormatString (fun _ => 0) 0 ['x', '%', 'd']).1.map FSeg.evalStr).flatten
            = ['x', '%', 'd']) :=
  ⟨by decide, obfuscateFormatString_specifier_preservation (fun _ => 0) 0 ['x', '%', 'd'] (by decide)⟩

theorem wrap64_eq_self {z : Int} (h1 : -(2 ^ 63) ≤ z) (h2 : z < 2 ^ 63) :
    wrap64 z = z := by
  unfold wrap64
  omega

theorem wrap64_add_left (a b : Int) : wrap64 (wrap64 a + b) = wrap64 (a + b) := by
  unfold wrap64
  omega

theorem toU64_lt (z : Int) : toU64 z < 2 ^ 64 := by
  unfold toU64
  omega

theorem fromU64_toU64 {z : Int} (h1 : -(2 ^ 63) ≤ z) (h2 : z < 2 ^ 63) :
    fromU64 (toU64 z) = z := by
  unfold fromU64 toU64
  split <;> omega

theorem toU64_fromU64 {u : Nat} (h : u < 2 ^ 64) : toU64 (fromU64 u) = u := by
  unfold fromU64 toU64
  split <;> omega

theorem xor64_cancel {a : Int} (b : Int) (h1 : -(2 ^ 63) ≤ a) (h2 : a < 2 ^ 63) :
    xor64 (xor64 a b) b = a := by
  unfold xor64
  rw [toU64_fromU64 (Nat.xor_lt_two_pow (toU64_lt a) (toU64_lt b)),
    Nat.xor_cancel_right, fromU64_toU64 h1 h2]

/-- C2 (amended): for every `int64` value `n`, the additive,
subtractive, and XOR strategies of `obfuscateInteger` always evaluate
to exactly `n` in Go's wrapping `int64` arithmetic; the
multiplicative-division strategy does so — and its emitted numerator is
an exact multiple of the emitted divisor — provided the product `n·k`
does not overflow `int64`.  (The unamended claim fails on overflow; see
the counterexample.) -/
theorem obfuscateInteger_round_trip (g : Rng) (i : Nat) (n : Int)
    (hlo : -(2 ^ 63) ≤ n) (hhi : n < 2 ^ 63)
    (hdiv : g i % 4 = 3 →
      -(2 ^ 63) ≤ n * ((g (i + 1) % 10 + 2 : Nat) : Int)
        ∧ n * ((g (i + 1) % 10 + 2 : Nat) : Int) < 2 ^ 63) :
    (obfuscateInteger g i n).1.eval = n
      ∧ ∀ a b : Int, (obfuscateInteger g i n).1 = IExpr.div a b → b ∣ a := by
  have h4 : g i % 4 = 0 ∨ g i % 4 = 1 ∨ g i % 4 = 2 ∨ g i % 4 = 3 := by omega
  rcases h4 with h | h | h | h
  · refine ⟨?_, ?_⟩
    · simp only [obfuscateInteger, h, IExpr.eval]
      rw [wrap64_add_left]
      have : n - ((g (i + 1) % 1000 + 1 : Nat) : Int) + ((g (i + 1) % 1000 + 1 : Nat) : Int) = n := by
        ring
      rw [this, wrap64_eq_self hlo hhi]
    · intro a b hab
      simp only [obfuscateInteger, h] at hab
      exact absurd hab (by simp)
  · refine ⟨?_, ?_⟩
    · simp only [obfuscateInteger, h, IExpr.eval]
      rw [sub_eq_add_neg, wrap64_add_left]
      have : n + ((g (i + 1) % 1000 + 1 : Nat) : Int) + -((g (i + 1) % 1000 + 1 : Nat) : Int) = n := by
        ring
      rw [this, wrap64_eq_self hlo hhi]
    · intro a b hab
      simp only [obfuscateInteger, h] at hab
      exact absurd hab (by simp)
  · refine ⟨?_, ?_⟩
    · simp only [obfuscateInteger, h, IExpr.eval]
      exact xor64_cancel _ hlo hhi
    · intro a b hab
      simp only [obfuscateInteger, h] at hab
      exact absurd hab (by simp)
  · obtain ⟨hdlo, hdhi⟩ := hdiv h
    refine ⟨?_, ?_⟩
    · simp only [obfuscateInteger, h, IExpr.eval]
      rw [wrap64_eq_self hdlo hdhi]
      exact Int.mul_tdiv_cancel n (by positivity)
    · intro a b hab
      simp only [obfuscateInteger, h, IExpr.div.injEq] at hab
      obtain ⟨ha, hb⟩ := hab
      rw [← ha, ← hb, wrap64_eq_self hdlo hdhi]
      exact Dvd.intro n (mul_comm _ n)

/-- Witness for C2 (amended) at `n = 42` with the constant-3 stream,
which selects the multiplicative-division strategy with `k = 5`. -/
theorem obfuscateInteger_round_trip_witness :
    (obfuscateInteger (fun _ => 3) 0 42).1.eval = 42 :=
  (obfuscateInteger_round_trip (fun _ => 3) 0 42 (by decide) (by decide) (by decide)).1

/-- C2 counterexample: with the stream that selects the
multiplicative-division strategy and `k = 2`, the expression emitted
for `n = 2^62` evaluates to `-2^62`, not `n`, because `n·k` overflows
`int64`; and with `k = 3` and `n = 3074457345618258603` the emitted
numerator (the wrapped product) is not a multiple of the divisor. -/
theorem obfuscateInteger_overflow_counterexample :
    ((obfuscateInteger (fun j => if j = 0 then 3 else 0) 0 (2 ^ 62)).1.eval ≠ 2 ^ 62)
      ∧ (obfuscateInteger (fun j => if j = 0 then 3 else 1) 0 3074457345618258603).1
          = IExpr.div (-9223372036854775807) 3
      ∧ ¬ ((3 : Int) ∣ (-9223372036854775807 : Int)) := by
  refine ⟨by decide, by decide, ?_⟩
  omega

theorem lookupName_none_iff (m : NameMap) (k : String) :
    lookupName m k = none ↔ k ∉ m.map Prod.fst := by
  induction m with
  | nil => simp [lookupName]
  | cons p rest ih =>
      simp only [lookupName, List.map_cons, List.mem_cons]
      by_cases h : p.1 = k
      · simp [h]
      · rw [if_neg h, ih]
        constructor
        · intro hk hor
          rcases hor with h1 | h2
          · exact h h1.symm
          · exact hk h2
        · intro hk h2
          exact hk (Or.inr h2)

theorem lookupName_mem_values {m : NameMap} {k v : String}
    (h : lookupName m k = some v) : v ∈ m.map Prod.snd := by
  induction m with
  | nil => simp [lookupName] at h
  | cons p rest ih =>
      simp only [lookupName] at h
      by_cases hp : p.1 = k
      · rw [if_pos hp] at h
        simp at h
        simp [h]
      · rw [if_neg hp] at h
        simp [ih h]

theorem valueExists_false_iff (m : NameMap) (v : String) :
    valueExists m v = false ↔ v ∉ m.map Prod.snd := by
  simp only [valueExists, List.any_eq_false, List.mem_map]
  constructor
  · rintro h ⟨p, hp, hv⟩
    exact absurd (by simp [hv] : (p.2 == v) = true) (by simp [h p hp])
  · intro h p hp
    cases hbe : (p.2 == v) with
    | false => simp
    | true => exact absurd (eq_of_beq hbe) (fun hv => h ⟨p, hp, hv⟩)

theorem findFreshName_spec (g : Rng) :
    ∀ fuel i : Nat, ∀ m : NameMap, ∀ original v : String, ∀ m' : NameMap, ∀ i' : Nat,
      findFreshName g fuel i m original = some (v, m', i') →
        m' = (original, v) :: m ∧ valueExists m v = false := by
  intro fuel
  induction fuel with
  | zero => intro i m o v m' i' h; simp [findFreshName] at h
  | succ f ih =>
      intro i m o v m' i' h
      simp only [findFreshName] at h
      by_cases hc : valueExists m (generateObfuscatedName g i 20).1
      · rw [if_pos hc] at h
        exact ih _ _ _ _ _ _ h
      · rw [if_neg hc] at h
        simp only [Option.some.injEq, Prod.mk.injEq] at h
        obtain ⟨hv, hm, _⟩ := h
        subst hv
        exact ⟨hm.symm, by simpa using hc⟩

theorem getObfuscatedName_good {g : Rng} {fuel i : Nat} {m : NameMap} {o v : String}
    {m' : NameMap} {i' : Nat}
    (hgood : GoodMap m)
    (h : getObfuscatedName g fuel i m o = some (v, m', i')) : GoodMap m' := by
  unfold getObfuscatedName at h
  match hl : lookupName m o with
  | some w =>
      rw [hl] at h
      simp only [Option.some.injEq, Prod.mk.injEq] at h
      obtain ⟨_, hm, _⟩ := h
      rwa [← hm]
  | none =>
      rw [hl] at h
      obtain ⟨hm, hval⟩ := findFreshName_spec g fuel i m o v m' i' h
      subst hm
      refine ⟨?_, ?_⟩
      · simp only [List.map_cons, List.nodup_cons]
        exact ⟨(lookupName_none_iff m o).mp hl, hgood.1⟩
      · simp only [List.map_cons, List.nodup_cons]
        exact ⟨(valueExists_false_iff m v).mp hval, hgood.2⟩

theorem getObfuscatedName_mono {g : Rng} {fuel i : Nat} {m : NameMap} {o v : String}
    {m' : NameMap} {i' : Nat}
    (h : getObfuscatedName g fuel i m o = some (v, m', i')) :
    ∀ k w : String, lookupName m k = some w → lookupName m' k = some w := by
  intro k w hk
  unfold getObfuscatedName at h
  match hl : lookupName m o with
  | some u =>
      rw [hl] at h
      simp only [Option.some.injEq, Prod.mk.injEq] at h
      obtain ⟨_, hm, _⟩ := h
      rwa [← hm]
  | none =>
      rw [hl] at h
      obtain ⟨hm, _⟩ := findFreshName_spec g fuel i m o v m' i' h
      subst hm
      have hko : o ≠ k := by
        intro he
        rw [he] at hl
        rw [hl] at hk
        exact absurd hk (by simp)
      simp only [lookupName, if_neg hko]
      exact hk

theorem getObfuscatedName_lookup_self {g : Rng} {fuel i : Nat} {m : NameMap} {o v : String}
    {m' : NameMap} {i' : Nat}
    (h : getObfuscatedName g fuel i m o = some (v, m', i')) :
    lookupName m' o = some v := by
  unfold getObfuscatedName at h
  match hl : lookupName m o with
  | some u =>
      rw [hl] at h
      simp only [Option.some.injEq, Prod.mk.injEq] at h
      obtain ⟨hv, hm, _⟩ := h
      rw [← hm, hl, hv]
  | none =>
      rw [hl] at h
      obtain ⟨hm, _⟩ := findFreshName_spec g fuel i m o v m' i' h
      subst hm
      simp [lookupName]

theorem processNames_good (g : Rng) (fuel : Nat) :
    ∀ names : List String, ∀ i : Nat, ∀ m m' : NameMap, ∀ ix : Nat,
      processNames g fuel i m names = some (m', ix) → GoodMap m → GoodMap m' := by
  intro names
  induction names with
  | nil =>
      intro i m m' ix h hg
      simp only [processNames, Option.some.injEq, Prod.mk.injEq] at h
      rwa [← h.1]
  | cons x xs ih =>
      intro i m m' ix h hg
      simp only [processNames] at h
      match hx : getObfuscatedName g fuel i m x with
      | none => rw [hx] at h; exact absurd h (by simp)
      | some r =>
          rw [hx] at h
          exact ih _ _ _ _ h (getObfuscatedName_good hg hx)

theorem goodMap_lookup_inj :
    ∀ m : NameMap, GoodMap m → ∀ a b va vb : String, a ≠ b →
      lookupName m a = some va → lookupName m b = some vb → va ≠ vb := by
  intro m
  induction m with
  | nil => intro _ a b va vb _ ha _; simp [lookupName] at ha
  | cons p rest ih =>
      intro hg a b va vb hab ha hb
      obtain ⟨hk, hv⟩ := hg
      simp only [List.map_cons, List.nodup_cons] at hk hv
      simp only [lookupName] at ha hb
      by_cases hpa : p.1 = a
      · rw [if_pos hpa] at ha
        have hpb : p.1 ≠ b := fun he => hab (hpa ▸ he ▸ rfl)
        rw [if_neg hpb] at hb
        have hmem := lookupName_mem_values hb
        simp only [Option.some.injEq] at ha
        rw [← ha]
        intro he
        exact hv.1 (he ▸ hmem)
      · rw [if_neg hpa] at ha
        by_cases hpb : p.1 = b
        · rw [if_pos hpb] at hb
          have hmem := lookupName_mem_values ha
          simp only [Option.some.injEq] at hb
          rw [← hb]
          intro he
          exact hv.1 (he ▸ hmem)
        · rw [if_neg hpb] at hb
          exact ih ⟨hk.2, hv.2⟩ a b va vb hab ha hb

/-- C3: the NameMap is injective at every point of a run: for any
sequence of original names processed by `getObfuscatedName` starting
from the empty map, two distinct originals that both have stored
replacements have distinct replacements (a fresh candidate is accepted
only after the collision check against every previously issued
replacement). -/
theorem nameMap_injective (g : Rng) (fuel : Nat) (names : List String)
    (m : NameMap) (ix : Nat)
    (hrun : processNames g fuel 0 [] names = some (m, ix))
    (a b va vb : String) (hab : a ≠ b)
    (ha : lookupName m a = some va) (hb : lookupName m b = some vb) :
    va ≠ vb :=
  goodMap_lookup_inj m
    (processNames_good g fuel names 0 [] m ix hrun ⟨List.nodup_nil, List.nodup_nil⟩)
    a b va vb hab ha hb

/-- Witness for C3: a concrete two-name run with the identity stream. -/
theorem nameMap_injective_witness :
    processNames (fun n => n) 1 0 [] ["x", "y"]
        = some ([("y", "uВHНMМTТO0olI1aаeеpр"), ("x", "a0olI1aаeеpрcсxхyуkк")], 40)
      ∧ ("a0olI1aаeеpрcсxхyуkк" : String) ≠ "uВHНMМTТO0olI1aаeеpр" :=
  ⟨by decide,
    nameMap_injective (fun n => n) 1 ["x", "y"]
      [("y", "uВHНMМTТO0olI1aаeеpр"), ("x", "a0olI1aаeеpрcсxхyуkк")] 40
      (by decide) "x" "y" "a0olI1aаeеpрcсxхyуkк" "uВHНMМTТO0olI1aаeеpр"
      (by decide) (by decide) (by decide)⟩

/-- C4 (code bug): `collectStructTypes` performs **no** reserved-name
check.  On the failing input `type Error struct{}` (a program declaring
a struct type spelled like the reserved name `Error`), the reserved
name `"Error"` is passed to `getObfuscatedName`, ends up as a key of
`nameMap` (and of `structTypeMapping`), and `obfuscateStructTypes`
subsequently rewrites every non-field occurrence of `Error` — contradicting
the claim (and the code's own comment that reserved names "should never
be obfuscated"). -/
theorem collectStructTypes_reserved_name_bug :
    "Error" ∈ reservedNames
      ∧ ((collectStructTypes (fun n => n) 1 [⟨"Error", true⟩] ⟨[], [], [], [], 0⟩).map
            (fun st => ((lookupName st.nameMap "Error").isSome,
              decide (rewriteTypeIdent [] st.structTypeMapping st.typeAliasMapping "Error"
                ≠ "Error"))))
          = some (true, true) := by
  constructor
  · decide
  · decide

/-- C6 counterexample: with `structTypeMapping = [Foo ↦ aOOO…O]` and
`typeAliasMapping = [aOOO…O ↦ bOOO…O]` (both names of the shape the
generator emits, and `aOOO…O` a legal declared-alias spelling), the
identifier `Foo` — a key of `structTypeMapping` not spelled like any
field — is rewritten to `bOOO…O`, **not** to its recorded replacement
`aOOO…O`: the two lookups are applied in sequence, so the first
rewrite's output is rewritten again. -/
theorem rewriteTypeIdent_chain_counterexample :
    lookupName [("Foo", "aOOOOOOOOOOOOOOOOOOO")] "Foo" = some "aOOOOOOOOOOOOOOOOOOO"
      ∧ (([] : List String).contains "Foo") = false
      ∧ rewriteTypeIdent [] [("Foo", "aOOOOOOOOOOOOOOOOOOO")]
          [("aOOOOOOOOOOOOOOOOOOO", "bOOOOOOOOOOOOOOOOOOO")] "Foo"
          = "bOOOOOOOOOOOOOOOOOOO" := by
  refine ⟨by decide, by decide, by decide⟩

/-- C6 (amended): during structural-type/alias rewriting, an identifier
spelled like a declared field name is always left unchanged; an
identifier that is a `structTypeMapping` key (and not a field name) is
rewritten to its recorded replacement **provided that replacement is
not itself a `typeAliasMapping` key** — otherwise it is rewritten a
second time through the alias map; and an identifier that is only a
`typeAliasMapping` key (and not a field name) is rewritten to its alias
replacement. -/
theorem rewriteTypeIdent_spec (fieldNameSet : List String) (stm tam : NameMap) (name : String) :
    (fieldNameSet.contains name = true → rewriteTypeIdent fieldNameSet stm tam name = name)
      ∧ (fieldNameSet.contains name = false →
          (∀ r : String, lookupName stm name = some r → lookupName tam r = none →
              rewriteTypeIdent fieldNameSet stm tam name = r)
            ∧ (∀ r r2 : String, lookupName stm name = some r → lookupName tam r = some r2 →
                rewriteTypeIdent fieldNameSet stm tam name = r2)
            ∧ (lookupName stm name = none →
                ∀ r : String, lookupName tam name = some r →
                  rewriteTypeIdent fieldNameSet stm tam name = r)) := by
  constructor
  · intro h
    unfold rewriteTypeIdent
    rw [if_pos h]
  · intro h
    refine ⟨?_, ?_, ?_⟩
    · intro r h1 h2
      unfold rewriteTypeIdent
      rw [if_neg (by simpa using h)]
      simp only [h1, h2]
    · intro r r2 h1 h2
      unfold rewriteTypeIdent
      rw [if_neg (by simpa using h)]
      simp only [h1, h2]
    · intro h1 r h2
      unfold rewriteTypeIdent
      rw [if_neg (by simpa using h)]
      simp only [h1, h2]

/-- Witness for C6 (amended): concrete instances of the field-precedence
case and of the plain struct-key case. -/
theorem rewriteTypeIdent_spec_witness :
    rewriteTypeIdent ["f"] [("f", "X")] [] "f" = "f"
      ∧ rewriteTypeIdent [] [("Foo", "X")] [] "Foo" = "X" :=
  ⟨(rewriteTypeIdent_spec ["f"] [("f", "X")] [] "f").1 (by decide),
    ((rewriteTypeIdent_spec [] [("Foo", "X")] [] "Foo").2 (by decide)).1 "X"
      (by decide) (by decide)⟩

/-- C8 counterexample: two literals the claim says are left unchanged
but the code obfuscates.  `"a\nb"` contains the backslash escape `\n`,
yet its unquoted value contains no backslash character, so it is
encoded; `"€"` is one character but three UTF-8 bytes, so the `len(s) <
3` byte check does not skip it and it is encoded. -/
theorem processStringMatch_counterexample :
    (goUnquote "\"a\\nb\"".toList = some ['a', '\n', 'b']
      ∧ (processStringMatch true (fun _ => 0) 0 "\"a\\nb\"".toList).1 ≠ "\"a\\nb\"".toList)
    ∧ (goUnquote "\"€\"".toList = some ['€']
      ∧ (['€'] : List Char).length < 3
      ∧ (processStringMatch true (fun _ => 0) 0 "\"€\"".toList).1 ≠ "\"€\"".toList) := by
  exact ⟨⟨by decide, by decide⟩, by decide, by decide, by decide⟩

/-- C8 (amended): in the quoted string-literal sweep, a double-quoted
literal is left unchanged when its unquoted value is shorter than 3
UTF-8 bytes, or contains a backslash **character** (i.e. the source
literal contained an escaped backslash), or is URL-shaped (`://`) in a
non-plain-assignment context; every remaining literal is routed to the
format-string encoder when it contains a `%` and to the plain string
encoder otherwise, its text replaced by the rendered encoding. -/
theorem processStringMatch_spec (assign : Bool) (g : Rng) (i : Nat) (m s : List Char)
    (hus : goUnquote m = some s) :
    (utf8Len s < 3 → processStringMatch assign g i m = (m, i))
      ∧ (s.contains '\\' = true → processStringMatch assign g i m = (m, i))
      ∧ (containsSub "://".toList s = true → assign = false →
          processStringMatch assign g i m = (m, i))
      ∧ (3 ≤ utf8Len s → s.contains '\\' = false →
          (containsSub "://".toList s = false ∨ assign = true) →
            (s.contains '%' = true →
              processStringMatch assign g i m = obfuscateFormatStringR g i s)
            ∧ (s.contains '%' = false →
              processStringMatch assign g i m = obfuscateStringLiteralR g i s)) := by
  unfold processStringMatch
  simp only [hus]
  refine ⟨?_, ?_, ?_, ?_⟩
  · intro h
    rw [if_pos h]
  · intro h
    by_cases h3 : utf8Len s < 3
    · rw [if_pos h3]
    · rw [if_neg h3, if_pos h]
  · intro hurl hassign
    by_cases h3 : utf8Len s < 3
    · rw [if_pos h3]
    · rw [if_neg h3]
      by_cases hbs : s.contains '\\'
      · rw [if_pos hbs]
      · rw [if_neg hbs, if_pos (by rw [hurl, hassign]; rfl)]
  · intro h3 hbs hurl
    rw [if_neg (by omega), if_neg (by rw [hbs]; exact Bool.false_ne_true)]
    have hc : ¬ ((containsSub "://".toList s && !assign) = true) := by
      rcases hurl with h | h
      · rw [h]
        simp
      · rw [h]
        simp
    rw [if_neg hc]
    constructor
    · intro hp
      rw [if_pos hp]
    · intro hp
      rw [if_neg (by rw [hp]; exact Bool.false_ne_true)]

/-- Witness for C8 (amended): the literal `"ab"` (value 2 bytes) is
left unchanged. -/
theorem processStringMatch_spec_witness :
    utf8Len ['a', 'b'] < 3
      ∧ processStringMatch true (fun _ => 0) 0 "\"ab\"".toList = ("\"ab\"".toList, 0) :=
  ⟨by decide,
    (processStringMatch_spec true (fun _ => 0) 0 "\"ab\"".toList ['a', 'b'] (by decide)).1
      (by decide)⟩

/-- C9: in the bare-integer sweep, any line containing a quoting
character (`"`, `` ` ``, `'`) or an already-encoded `string(`
construction is passed through unchanged; a separator-bounded integer
token whose value parses within `int64` is replaced by the rendered
arithmetic-identity encoding exactly when `10 < n ≤ 100000`, and left
unchanged when `n ≤ 10` or `n > 100000` (or beyond `int64`, where
`strconv.ParseInt` fails). -/
theorem obfuscateIntegersInText_spec :
    (∀ g : Rng, ∀ i : Nat, ∀ line : List Char, ∀ rest : List (List Char),
      intLineSkip line = true →
        intsLoop g i (line :: rest)
          = ((line :: (intsLoop g i rest).1, (intsLoop g i rest).2) : List (List Char) × Nat))
      ∧ (∀ g : Rng, ∀ i : Nat, ∀ pre : Char, ∀ ds : List Char, ∀ post : Char,
          parseDigits ds ≤ 10 ∨ parseDigits ds > 100000 →
            processIntMatch g i pre ds post = (pre :: ds ++ [post], i))
      ∧ (∀ g : Rng, ∀ i : Nat, ∀ pre : Char, ∀ ds : List Char, ∀ post : Char,
          10 < parseDigits ds → parseDigits ds ≤ 100000 →
            processIntMatch g i pre ds post
              = (pre :: renderIExpr (obfuscateInteger g i (parseDigits ds : Int)).1 ++ [post],
                  (obfuscateInteger g i (parseDigits ds : Int)).2)) := by
  refine ⟨?_, ?_, ?_⟩
  · intro g i line rest h
    simp only [intsLoop]
    rw [if_pos h]
  · intro g i pre ds post h
    unfold processIntMatch
    by_cases hbig : parseDigits ds > 9223372036854775807
    · rw [if_pos hbig]
    · rw [if_neg hbig, if_pos (by rcases h with h | h <;> simp [h])]
  · intro g i pre ds post h1 h2
    unfold processIntMatch
    rw [if_neg (by omega), if_neg (by simp; omega)]

/-- Witness for C9: a quoted line is skipped; ` 5,` and ` 200000,` are
left unchanged; ` 42,` is replaced by the rendered identity `(41+1)`. -/
theorem obfuscateIntegersInText_spec_witness :
    intsLoop (fun _ => 0) 0 ["x := \"s\"".toList]
        = (["x := \"s\"".toList], 0)
      ∧ processIntMatch (fun _ => 0) 0 ' ' ['5'] ',' = (" 5,".toList, 0)
      ∧ processIntMatch (fun _ => 0) 0 ' ' "200000".toList ','
          = (" 200000,".toList, 0)
      ∧ processIntMatch (fun _ => 0) 0 ' ' "42".toList ',' = (" (41+1),".toList, 2) := by
  refine ⟨?_, ?_, ?_, ?_⟩
  · have h := obfuscateIntegersInText_spec.1 (fun _ => 0) 0 "x := \"s\"".toList [] (by decide)
    rw [h]
    decide
  · exact obfuscateIntegersInText_spec.2.1 (fun _ => 0) 0 ' ' ['5'] ',' (by decide)
  · exact obfuscateIntegersInText_spec.2.1 (fun _ => 0) 0 ' ' "200000".toList ',' (by decide)
  · have h := obfuscateIntegersInText_spec.2.2 (fun _ => 0) 0 ' ' "42".toList ','
      (by decide) (by decide)
    rw [h]
    decide

theorem obfImportSpecs_mono (g : Rng) (fuel : Nat) :
    ∀ specs : List AImportSpec, ∀ nm al : NameMap, ∀ ix : Nat,
      ∀ specs' : List AImportSpec, ∀ nm' al' : NameMap, ∀ ix' : Nat,
      obfImportSpecs g fuel specs nm al ix = some (specs', nm', al', ix') →
      ∀ k w : String, lookupName nm k = some w → lookupName nm' k = some w := by
  intro specs
  induction specs with
  | nil =>
      intro nm al ix specs' nm' al' ix' h k w hk
      simp only [obfImportSpecs, Option.some.injEq, Prod.mk.injEq] at h
      obtain ⟨-, h2, -, -⟩ := h
      rwa [← h2]
  | cons sp rest ih =>
      intro nm al ix specs' nm' al' ix' h k w hk
      simp only [obfImportSpecs] at h
      match hg : getObfuscatedName g fuel ix nm (baseOf sp) with
      | none => rw [hg] at h; exact absurd h (by simp)
      | some r =>
          simp only [hg] at h
          match hrec : obfImportSpecs g fuel rest r.2.1 (setAssoc al (baseOf sp) r.1) r.2.2 with
          | none => rw [hrec] at h; exact absurd h (by simp)
          | some (rest', nm1, al1, ix1) =>
              simp only [hrec, Option.some.injEq, Prod.mk.injEq] at h
              obtain ⟨-, h2, -, -⟩ := h
              rw [← h2]
              exact ih _ _ _ _ _ _ _ hrec k w (getObfuscatedName_mono hg k w hk)

theorem obfImportSpecs_inv (g : Rng) (fuel : Nat) :
    ∀ specs : List AImportSpec, ∀ nm al : NameMap, ∀ ix : Nat,
      ∀ specs' : List AImportSpec, ∀ nm' al' : NameMap, ∀ ix' : Nat,
      obfImportSpecs g fuel specs nm al ix = some (specs', nm', al', ix') →
      ∀ j : Nat, ∀ sp : AImportSpec, specs[j]? = some sp →
        ∃ a : String, lookupName nm' (baseOf sp) = some a
          ∧ specs'[j]? = some ⟨some ⟨a, false⟩, sp.path⟩ := by
  intro specs
  induction specs with
  | nil =>
      intro nm al ix specs' nm' al' ix' h j sp hj
      simp at hj
  | cons sp0 rest ih =>
      intro nm al ix specs' nm' al' ix' h j sp hj
      simp only [obfImportSpecs] at h
      match hg : getObfuscatedName g fuel ix nm (baseOf sp0) with
      | none => rw [hg] at h; exact absurd h (by simp)
      | some r =>
          simp only [hg] at h
          match hrec : obfImportSpecs g fuel rest r.2.1 (setAssoc al (baseOf sp0) r.1) r.2.2 with
          | none => rw [hrec] at h; exact absurd h (by simp)
          | some (rest', nm1, al1, ix1) =>
              simp only [hrec, Option.some.injEq, Prod.mk.injEq] at h
              obtain ⟨h1, h2, -, -⟩ := h
              match j with
              | 0 =>
                  simp only [List.getElem?_cons_zero, Option.some.injEq] at hj
                  subst hj
                  refine ⟨r.1, ?_, ?_⟩
                  · rw [← h2]
                    exact obfImportSpecs_mono g fuel rest _ _ _ _ _ _ _ hrec _ _
                      (getObfuscatedName_lookup_self hg)
                  · rw [← h1]
                    simp
              | j' + 1 =>
                  simp only [List.getElem?_cons_succ] at hj
                  obtain ⟨a, ha, hsp⟩ := ih _ _ _ _ _ _ _ hrec j' sp hj
                  refine ⟨a, by rw [← h2]; exact ha, ?_⟩
                  rw [← h1]
                  simpa using hsp

/-- C10: two imports whose paths share the same last segment receive
the **identical** generated alias: `obfuscateImports` keys the
allocation only by the path's base name, so the memoized
`getObfuscatedName` returns the same replacement for both. -/
theorem sameBase_imports_identical_alias (g : Rng) (fuel : Nat)
    (specs specs' : List AImportSpec) (nm al nm' al' : NameMap) (ix ix' : Nat)
    (hrun : obfImportSpecs g fuel specs nm al ix = some (specs', nm', al', ix'))
    (j k : Nat) (spj spk : AImportSpec)
    (hj : specs[j]? = some spj) (hk : specs[k]? = some spk)
    (hbase : baseOf spj = baseOf spk) :
    ∃ a : String, specs'[j]? = some ⟨some ⟨a, false⟩, spj.path⟩
      ∧ specs'[k]? = some ⟨some ⟨a, false⟩, spk.path⟩ := by
  obtain ⟨a1, ha1, hj'⟩ :=
    obfImportSpecs_inv g fuel specs nm al ix specs' nm' al' ix' hrun j spj hj
  obtain ⟨a2, ha2, hk'⟩ :=
    obfImportSpecs_inv g fuel specs nm al ix specs' nm' al' ix' hrun k spk hk
  rw [hbase] at ha1
  rw [ha1] at ha2
  obtain rfl : a1 = a2 := Option.some.inj ha2
  exact ⟨a1, hj', hk'⟩

/-- Witness for C10: `text/template` and `html/template` both receive
the alias generated for the base name `template`. -/
theorem sameBase_imports_identical_alias_witness :
    obfImportSpecs (fun n => n) 1
        [⟨none, "\"text/template\""⟩, ⟨none, "\"html/template\""⟩] [] [] 0
      = some ([⟨some ⟨"a0olI1aаeеpрcсxхyуkк", false⟩, "\"text/template\""⟩,
               ⟨some ⟨"a0olI1aаeеpрcсxхyуkк", false⟩, "\"html/template\""⟩],
              [("template", "a0olI1aаeеpрcсxхyуkк")],
              [("template", "a0olI1aаeеpрcсxхyуkк")], 20)
      ∧ (([⟨some ⟨"a0olI1aаeеpрcсxхyуkк", false⟩, "\"text/template\""⟩,
           ⟨some ⟨"a0olI1aаeеpрcсxхyуkк", false⟩, "\"html/template\""⟩] :
            List AImportSpec)[0]?).map AImportSpec.iname
        = (([⟨some ⟨"a0olI1aаeеpрcсxхyуkк", false⟩, "\"text/template\""⟩,
             ⟨some ⟨"a0olI1aаeеpрcсxхyуkк", false⟩, "\"html/template\""⟩] :
              List AImportSpec)[1]?).map AImportSpec.iname := by
  have hrun : obfImportSpecs (fun n => n) 1
      [⟨none, "\"text/template\""⟩, ⟨none, "\"html/template\""⟩] [] [] 0
      = some ([⟨some ⟨"a0olI1aаeеpрcсxхyуkк", false⟩, "\"text/template\""⟩,
               ⟨some ⟨"a0olI1aаeеpрcсxхyуkк", false⟩, "\"html/template\""⟩],
              [("template", "a0olI1aаeеpрcсxхyуkк")],
              [("template", "a0olI1aаeеpрcсxхyуkк")], 20) := by decide
  refine ⟨hrun, ?_⟩
  obtain ⟨a, h0, h1⟩ := sameBase_imports_identical_alias (fun n => n) 1 _ _ _ _ _ _ _ _
    hrun 0 1 ⟨none, "\"text/template\""⟩ ⟨none, "\"html/template\""⟩
    (by decide) (by decide) (by decide)
  rw [h0, h1]
  simp

theorem impsOfDecls_cons (d : ADecl) (ds : List ADecl) :
    impsOfDecls (d :: ds)
      = (match d with | .importDecl specs => specs | _ => []) ++ impsOfDecls ds := by
  simp only [impsOfDecls, List.flatMap_cons]

theorem obfuscateConsts_imports (f : AFile) :
    importSpecsOf (obfuscateConsts f) = importSpecsOf f := by
  show impsOfDecls (f.decls.map _) = impsOfDecls f.decls
  induction f.decls with
  | nil => rfl
  | cons d ds ih =>
      rw [List.map_cons, impsOfDecls_cons, impsOfDecls_cons, ih]
      congr 1
      cases d with
      | genDecl c specs => cases c <;> rfl
      | importDecl specs => rfl
      | typeDecl specs => rfl
      | funcDecl a b c => rfl

theorem map_iname_none (h : AIdent → AIdent) :
    ∀ specs : List AImportSpec, (∀ sp ∈ specs, sp.iname = none) →
      specs.map (fun sp => (⟨sp.iname.map h, sp.path⟩ : AImportSpec)) = specs := by
  intro specs
  induction specs with
  | nil => intro _; rfl
  | cons sp sps ih =>
      intro hall
      obtain ⟨in0, p0⟩ := sp
      have h0 : in0 = none := hall ⟨in0, p0⟩ (by simp)
      subst h0
      rw [List.map_cons, ih (fun x hx => hall x (by simp [hx]))]
      rfl

theorem impsOfDecls_mapId (h : AIdent → AIdent) :
    ∀ ds : List ADecl, (∀ sp ∈ impsOfDecls ds, sp.iname = none) →
      impsOfDecls (ds.map (mapIdDecl h)) = impsOfDecls ds := by
  intro ds
  induction ds with
  | nil => intro _; rfl
  | cons d rest ih =>
      intro hall
      have hrest := ih fun x hx =>
        hall x (by rw [impsOfDecls_cons]; exact List.mem_append_right _ hx)
      rw [List.map_cons, impsOfDecls_cons, impsOfDecls_cons, hrest]
      congr 1
      cases d with
      | importDecl specs =>
          show specs.map _ = specs
          exact map_iname_none h specs fun x hx =>
            hall x (by rw [impsOfDecls_cons]; exact List.mem_append_left _ hx)
      | genDecl c specs => rfl
      | typeDecl specs => rfl
      | funcDecl a b c => rfl

theorem obfuscateStructTypes_imports (f : AFile) (stm tam : NameMap)
    (hnone : ∀ sp ∈ importSpecsOf f, sp.iname = none) :
    importSpecsOf (obfuscateStructTypes f stm tam) = importSpecsOf f := by
  show impsOfDecls (f.decls.map _) = impsOfDecls f.decls
  exact impsOfDecls_mapId _ f.decls hnone

theorem actImpSpecs_none (a : IdentAction) :
    ∀ specs : List AImportSpec, ∀ nm : NameMap, ∀ ix : Nat,
      (∀ sp ∈ specs, sp.iname = none) →
      actImpSpecs a specs nm ix = some (specs, nm, ix) := by
  intro specs
  induction specs with
  | nil => intro nm ix _; rfl
  | cons sp sps ih =>
      intro nm ix hall
      have h0 : sp.iname = none := hall sp (by simp)
      simp only [actImpSpecs, actImportSpec, h0]
      rw [ih nm ix fun x hx => hall x (by simp [hx])]

theorem actDeclList_imports (a : IdentAction) :
    ∀ ds : List ADecl, ∀ nm : NameMap, ∀ ix : Nat,
      ∀ ds' : List ADecl, ∀ nm' : NameMap, ∀ ix' : Nat,
      actDeclList a ds nm ix = some (ds', nm', ix') →
      (∀ sp ∈ impsOfDecls ds, sp.iname = none) →
      impsOfDecls ds' = impsOfDecls ds := by
  intro ds
  induction ds with
  | nil =>
      intro nm ix ds' nm' ix' h _
      simp only [actDeclList, Option.some.injEq, Prod.mk.injEq] at h
      rw [← h.1]
  | cons d rest ih =>
      intro nm ix ds' nm' ix' h hall
      simp only [actDeclList] at h
      match hd : actDecl a d nm ix with
      | none => rw [hd] at h; exact absurd h (by simp)
      | some (d1, nm1, ix1) =>
          simp only [hd] at h
          match hrec : actDeclList a rest nm1 ix1 with
          | none => rw [hrec] at h; exact absurd h (by simp)
          | some (rest1, nm2, ix2) =>
              simp only [hrec, Option.some.injEq, Prod.mk.injEq] at h
              obtain ⟨h1, -, -⟩ := h
              have hallrest : ∀ sp ∈ impsOfDecls rest, sp.iname = none := fun x hx =>
                hall x (by rw [impsOfDecls_cons]; exact List.mem_append_right _ hx)
              rw [← h1, impsOfDecls_cons, impsOfDecls_cons,
                ih _ _ _ _ _ hrec hallrest]
              congr 1
              cases d with
              | importDecl specs =>
                  have hspecs : ∀ sp ∈ specs, sp.iname = none := fun x hx =>
                    hall x (by rw [impsOfDecls_cons]; exact List.mem_append_left _ hx)
                  simp only [actDecl, actImpSpecs_none a specs nm ix hspecs,
                    Option.some.injEq, Prod.mk.injEq] at hd
                  rw [← hd.1]
              | genDecl c specs =>
                  simp only [actDecl] at hd
                  match hv : actValSpecs a specs nm ix with
                  | none => rw [hv] at hd; exact absurd hd (by simp)
                  | some (specs1, nmx, ixx) =>
                      simp only [hv, Option.some.injEq, Prod.mk.injEq] at hd
                      rw [← hd.1]
              | typeDecl specs =>
                  simp only [actDecl] at hd
                  match hv : actTySpecs a specs nm ix with
                  | none => rw [hv] at hd; exact absurd hd (by simp)
                  | some (specs1, nmx, ixx) =>
                      simp only [hv, Option.some.injEq, Prod.mk.injEq] at hd
                      rw [← hd.1]
              | funcDecl fname hasRecv body =>
                  simp only [actDecl] at hd
                  match hv : a fname nm ix with
                  | none => rw [hv] at hd; exact absurd hd (by simp)
                  | some (fn1, nmx, ixx) =>
                      simp only [hv] at hd
                      match hb : actList a body nmx ixx with
                      | none => rw [hb] at hd; exact absurd hd (by simp)
                      | some (body1, nmy, ixy) =>
                          simp only [hb, Option.some.injEq, Prod.mk.injEq] at hd
                          rw [← hd.1]

theorem epDeclList_imports
    (t : AExpr → NameMap → Nat → Option (AExpr × NameMap × Nat)) :
    ∀ ds : List ADecl, ∀ nm : NameMap, ∀ ix : Nat,
      ∀ ds' : List ADecl, ∀ nm' : NameMap, ∀ ix' : Nat,
      epDeclList t ds nm ix = some (ds', nm', ix') →
      impsOfDecls ds' = impsOfDecls ds := by
  intro ds
  induction ds with
  | nil =>
      intro nm ix ds' nm' ix' h
      simp only [epDeclList, Option.some.injEq, Prod.mk.injEq] at h
      rw [← h.1]
  | cons d rest ih =>
      intro nm ix ds' nm' ix' h
      simp only [epDeclList] at h
      match hd : exprPassDecl t d nm ix with
      | none => rw [hd] at h; exact absurd h (by simp)
      | some (d1, nm1, ix1) =>
          simp only [hd] at h
          match hrec : epDeclList t rest nm1 ix1 with
          | none => rw [hrec] at h; exact absurd h (by simp)
          | some (rest1, nm2, ix2) =>
              simp only [hrec, Option.some.injEq, Prod.mk.injEq] at h
              obtain ⟨h1, -, -⟩ := h
              rw [← h1, impsOfDecls_cons, impsOfDecls_cons, ih _ _ _ _ _ hrec]
              congr 1
              cases d with
              | importDecl specs =>
                  simp only [exprPassDecl, Option.some.injEq, Prod.mk.injEq] at hd
                  rw [← hd.1]
              | genDecl c specs =>
                  simp only [exprPassDecl] at hd
                  match hv : epValSpecs t specs nm ix with
                  | none => rw [hv] at hd; exact absurd hd (by simp)
                  | some (specs1, nmx, ixx) =>
                      simp only [hv, Option.some.injEq, Prod.mk.injEq] at hd
                      rw [← hd.1]
              | typeDecl specs =>
                  simp only [exprPassDecl] at hd
                  match hv : epTySpecs t specs nm ix with
                  | none => rw [hv] at hd; exact absurd hd (by simp)
                  | some (specs1, nmx, ixx) =>
                      simp only [hv, Option.some.injEq, Prod.mk.injEq] at hd
                      rw [← hd.1]
              | funcDecl fname hasRecv body =>
                  simp only [exprPassDecl] at hd
                  match hv : epExprList t body nm ix with
                  | none => rw [hv] at hd; exact absurd hd (by simp)
                  | some (body1, nmx, ixx) =>
                      simp only [hv, Option.some.injEq, Prod.mk.injEq] at hd
                      rw [← hd.1]

theorem renameFuncDecls_imports (g : Rng) (fuel : Nat) (funcs methods : List String) :
    ∀ ds : List ADecl, ∀ nm : NameMap, ∀ ix : Nat,
      ∀ ds' : List ADecl, ∀ nm' : NameMap, ∀ ix' : Nat,
      renameFuncDecls g fuel funcs methods ds nm ix = some (ds', nm', ix') →
      impsOfDecls ds' = impsOfDecls ds := by
  intro ds
  induction ds with
  | nil =>
      intro nm ix ds' nm' ix' h
      simp only [renameFuncDecls, Option.some.injEq, Prod.mk.injEq] at h
      rw [← h.1]
  | cons d rest ih =>
      intro nm ix ds' nm' ix' h
      cases d with
      | funcDecl fname hasRecv body =>
          simp only [renameFuncDecls] at h
          by_cases hc : (funcs.contains fname.name || methods.contains fname.name) = true
          · rw [if_pos hc] at h
            match hg : getObfuscatedName g fuel ix nm fname.name with
            | none => rw [hg] at h; exact absurd h (by simp)
            | some r =>
                simp only [hg] at h
                match hrec : renameFuncDecls g fuel funcs methods rest r.2.1 r.2.2 with
                | none => rw [hrec] at h; exact absurd h (by simp)
                | some (rest1, nm2, ix2) =>
                    simp only [hrec, Option.some.injEq, Prod.mk.injEq] at h
                    obtain ⟨h1, -, -⟩ := h
                    rw [← h1, impsOfDecls_cons, impsOfDecls_cons, ih _ _ _ _ _ hrec]
          · rw [if_neg hc] at h
            match hrec : renameFuncDecls g fuel funcs methods rest nm ix with
            | none => rw [hrec] at h; exact absurd h (by simp)
            | some (rest1, nm2, ix2) =>
                simp only [hrec, Option.some.injEq, Prod.mk.injEq] at h
                obtain ⟨h1, -, -⟩ := h
                rw [← h1, impsOfDecls_cons, impsOfDecls_cons, ih _ _ _ _ _ hrec]
      | importDecl specs =>
          simp only [renameFuncDecls] at h
          match hrec : renameFuncDecls g fuel funcs methods rest nm ix with
          | none => rw [hrec] at h; exact absurd h (by simp)
          | some (rest1, nm2, ix2) =>
              simp only [hrec, Option.some.injEq, Prod.mk.injEq] at h
              obtain ⟨h1, -, -⟩ := h
              rw [← h1, impsOfDecls_cons, impsOfDecls_cons, ih _ _ _ _ _ hrec]
      | genDecl c specs =>
          simp only [renameFuncDecls] at h
          match hrec : renameFuncDecls g fuel funcs methods rest nm ix with
          | none => rw [hrec] at h; exact absurd h (by simp)
          | some (rest1, nm2, ix2) =>
              simp only [hrec, Option.some.injEq, Prod.mk.injEq] at h
              obtain ⟨h1, -, -⟩ := h
              rw [← h1, impsOfDecls_cons, impsOfDecls_cons, ih _ _ _ _ _ hrec]
      | typeDecl specs =>
          simp only [renameFuncDecls] at h
          match hrec : renameFuncDecls g fuel funcs methods rest nm ix with
          | none => rw [hrec] at h; exact absurd h (by simp)
          | some (rest1, nm2, ix2) =>
              simp only [hrec, Option.some.injEq, Prod.mk.injEq] at h
              obtain ⟨h1, -, -⟩ := h
              rw [← h1, impsOfDecls_cons, impsOfDecls_cons, ih _ _ _ _ _ hrec]

theorem obfuscateVariables_imports (cfg : Config) (g : Rng) (fuel : Nat) (f : AFile)
    (sts sfs : List String) (tam : NameMap) (nm : NameMap) (ix : Nat)
    (f' : AFile) (nm' : NameMap) (ix' : Nat)
    (h : obfuscateVariables cfg g fuel f sts sfs tam nm ix = some (f', nm', ix'))
    (hnone : ∀ sp ∈ importSpecsOf f, sp.iname = none) :
    importSpecsOf f' = importSpecsOf f := by
  unfold obfuscateVariables at h
  by_cases hv : cfg.noVars = true
  · rw [if_pos hv] at h
    simp only [Option.some.injEq, Prod.mk.injEq] at h
    rw [← h.1]
  · rw [if_neg hv] at h
    unfold actFile at h
    match hdl : actDeclList (varAction sts sfs tam (packageVarsOf f) g fuel) f.decls nm ix with
    | none => rw [hdl] at h; exact absurd h (by simp)
    | some (decls1, nm1, ix1) =>
        simp only [hdl, Option.some.injEq, Prod.mk.injEq] at h
        obtain ⟨h1, -, -⟩ := h
        rw [← h1]
        exact actDeclList_imports _ f.decls nm ix decls1 nm1 ix1 hdl hnone

theorem obfuscateFunctions_imports (cfg : Config) (g : Rng) (fuel : Nat) (f : AFile)
    (funcs methods fields : List String) (nm : NameMap) (ix : Nat)
    (f' : AFile) (nm' : NameMap) (ix' : Nat)
    (h : obfuscateFunctions cfg g fuel f funcs methods fields nm ix = some (f', nm', ix')) :
    importSpecsOf f' = importSpecsOf f := by
  unfold obfuscateFunctions at h
  by_cases hv : cfg.noFunctions = true
  · rw [if_pos hv] at h
    simp only [Option.some.injEq, Prod.mk.injEq] at h
    rw [← h.1]
  · rw [if_neg hv] at h
    match h1 : renameFuncDecls g fuel funcs methods f.decls nm ix with
    | none => rw [h1] at h; exact absurd h (by simp)
    | some (decls1, nm1, ix1) =>
        simp only [h1] at h
        unfold exprPassFile at h
        match h2 : epDeclList (callsExpr g fuel funcs methods) decls1 nm1 ix1 with
        | none => rw [h2] at h; exact absurd h (by simp)
        | some (decls2, nm2, ix2) =>
            simp only [h2] at h
            match h3 : epDeclList (selsExpr g fuel methods fields) decls2 nm2 ix2 with
            | none => rw [h3] at h; exact absurd h (by simp)
            | some (decls3, nm3, ix3) =>
                simp only [h3, Option.some.injEq, Prod.mk.injEq] at h
                obtain ⟨hf, -, -⟩ := h
                rw [← hf]
                show impsOfDecls decls3 = impsOfDecls f.decls
                rw [epDeclList_imports _ decls2 nm2 ix2 decls3 nm3 ix3 h3,
                  epDeclList_imports _ decls1 nm1 ix1 decls2 nm2 ix2 h2,
                  renameFuncDecls_imports g fuel funcs methods f.decls nm ix decls1 nm1 ix1 h1]

/-- C7: with the import-aliasing toggle off (`-no-imports`), the
import-aliasing and the import-reference-rewriting passes are no-ops on
the tree and its state (no import gains an alias, no selector qualifier is
rewritten); the import block survives the whole AST pipeline unchanged
(for a pre-rename tree whose imports carry no explicit alias, the shape
`go/parser` produces for unaliased imports), so its rendering is
byte-identical; and every other pass reads only its own toggle — its
behaviour is a function independent of the `noImports` flag.
(`obfuscateConsts` and `obfuscateStructTypes` read no flag at all.) -/
theorem noImports_toggle_frame (cfg : Config) (g : Rng) (fuel : Nat)
    (hni : cfg.noImports = true) :
    (∀ f : AFile, ∀ nm al : NameMap, ∀ ix : Nat,
        obfuscateImports cfg g fuel f nm al ix = some (f, nm, al, ix))
      ∧ (∀ al : NameMap, ∀ f : AFile, updateImportReferences cfg al f = f)
      ∧ (∀ f f' : AFile, ∀ nm : NameMap, ∀ ix : Nat,
          runAstPipeline cfg g fuel f = some (f', nm, ix) →
          (∀ sp ∈ importSpecsOf f, sp.iname = none) →
          importSpecsOf f' = importSpecsOf f)
      ∧ (∀ b b' : Bool, ∀ f : AFile, ∀ sts sfs : List String, ∀ tam nm : NameMap, ∀ ix : Nat,
          obfuscateVariables {cfg with noImports := b} g fuel f sts sfs tam nm ix
            = obfuscateVariables {cfg with noImports := b'} g fuel f sts sfs tam nm ix)
      ∧ (∀ b b' : Bool, ∀ f : AFile, ∀ funcs methods fields : List String,
          ∀ nm : NameMap, ∀ ix : Nat,
          obfuscateFunctions {cfg with noImports := b} g fuel f funcs methods fields nm ix
            = obfuscateFunctions {cfg with noImports := b'} g fuel f funcs methods fields nm ix)
      ∧ (∀ b b' : Bool, ∀ i : Nat, ∀ content : List Char,
          obfuscateBacktickStrings {cfg with noImports := b} g i content
            = obfuscateBacktickStrings {cfg with noImports := b'} g i content)
      ∧ (∀ b b' : Bool, ∀ i : Nat, ∀ content : List Char,
          obfuscateStringsInText {cfg with noImports := b} g i content
            = obfuscateStringsInText {cfg with noImports := b'} g i content)
      ∧ (∀ b b' : Bool, ∀ i : Nat, ∀ content : List Char,
          obfuscateIntegersInText {cfg with noImports := b} g i content
            = obfuscateIntegersInText {cfg with noImports := b'} g i content) := by
  refine ⟨?_, ?_, ?_, ?_, ?_, ?_, ?_, ?_⟩
  · intro f nm al ix
    unfold obfuscateImports
    rw [if_pos hni]
  · intro al f
    unfold updateImportReferences
    rw [if_pos hni]
  · intro f f' nm ix hrun hnone
    unfold runAstPipeline at hrun
    match hts : collectStructTypes g fuel (typeSpecsLite f) ⟨[], [], [], [], 0⟩ with
    | none => rw [hts] at hrun; exact absurd hrun (by simp)
    | some ts =>
        simp only [hts] at hrun
        have himp : obfuscateImports cfg g fuel (obfuscateConsts f) ts.nameMap [] ts.rngIx
            = some (obfuscateConsts f, ts.nameMap, [], ts.rngIx) := by
          unfold obfuscateImports
          rw [if_pos hni]
        simp only [himp] at hrun
        have hupd : updateImportReferences cfg [] (obfuscateConsts f) = obfuscateConsts f := by
          unfold updateImportReferences
          rw [if_pos hni]
        simp only [hupd] at hrun
        have hnoneC : ∀ sp ∈ importSpecsOf (obfuscateConsts f), sp.iname = none := by
          rw [obfuscateConsts_imports]
          exact hnone
        have hnone4 : ∀ sp ∈ importSpecsOf
            (obfuscateStructTypes (obfuscateConsts f) ts.structTypeMapping
              ts.typeAliasMapping), sp.iname = none := by
          rw [obfuscateStructTypes_imports _ _ _ hnoneC]
          exact hnoneC
        match hvar : obfuscateVariables cfg g fuel
            (obfuscateStructTypes (obfuscateConsts f) ts.structTypeMapping
              ts.typeAliasMapping)
            ts.structTypes (collectStructFieldNames f) ts.typeAliasMapping
            ts.nameMap ts.rngIx with
        | none => rw [hvar] at hrun; exact absurd hrun (by simp)
        | some (f5, nm5, ix5) =>
            simp only [hvar] at hrun
            have h45 := obfuscateVariables_imports cfg g fuel _ _ _ _ _ _ f5 nm5 ix5
              hvar hnone4
            have h56 := obfuscateFunctions_imports cfg g fuel f5 (collectFuncs f).1
              (collectFuncs f).2 (collectStructFieldNames f) nm5 ix5 f' nm ix hrun
            rw [h56, h45, obfuscateStructTypes_imports _ _ _ hnoneC,
              obfuscateConsts_imports]
  · intro b b' f sts sfs tam nm ix
    rfl
  · intro b b' f funcs methods fields nm ix
    rfl
  · intro b b' i content
    rfl
  · intro b b' i content
    rfl
  · intro b b' i content
    rfl

/-- Witness for C7 at a concrete two-declaration program
(`import "fmt"; func main()`), with all passes enabled except import
aliasing. -/
theorem noImports_toggle_frame_witness :
    obfuscateImports ⟨false, false, false, false, true⟩ (fun _ => 0) 1
        ⟨[.importDecl [⟨none, "\"fmt\""⟩], .funcDecl ⟨"main", false⟩ false []]⟩ [] [] 0
        = some (⟨[.importDecl [⟨none, "\"fmt\""⟩], .funcDecl ⟨"main", false⟩ false []]⟩,
            [], [], 0)
      ∧ updateImportReferences ⟨false, false, false, false, true⟩ []
          ⟨[.importDecl [⟨none, "\"fmt\""⟩], .funcDecl ⟨"main", false⟩ false []]⟩
          = ⟨[.importDecl [⟨none, "\"fmt\""⟩], .funcDecl ⟨"main", false⟩ false []]⟩
      ∧ importSpecsOf ⟨[.importDecl [⟨none, "\"fmt\""⟩], .funcDecl ⟨"main", false⟩ false []]⟩
          = importSpecsOf
              ⟨[.importDecl [⟨none, "\"fmt\""⟩], .funcDecl ⟨"main", false⟩ false []]⟩ := by
  have h := noImports_toggle_frame ⟨false, false, false, false, true⟩ (fun _ => 0) 1 rfl
  refine ⟨h.1 _ [] [] 0, h.2.1 [] _, ?_⟩
  exact h.2.2.1 ⟨[.importDecl [⟨none, "\"fmt\""⟩], .funcDecl ⟨"main", false⟩ false []]⟩
    ⟨[.importDecl [⟨none, "\"fmt\""⟩], .funcDecl ⟨"main", false⟩ false []]⟩ [] 0
    (by rfl) (by decide)

/-- C7 counterexample: the import-block byte-identity of the unrestricted
claim fails on a program whose import carries an explicit alias spelled
like a declared type name. On `import rand "math/rand"` next to
`type rand struct\x7b\x7d` (parsed fine by `go/parser`, which never
type-checks), the structural-type pass rewrites every identifier that is a
key of the type maps — including the explicit alias ident `rand` of
the import spec — even though the import-aliasing toggle is off, so
the final import block's alias differs from the original spelling and
its rendering is not byte-identical. -/
theorem noImports_aliased_import_counterexample :
    (runAstPipeline ⟨false, false, false, false, true⟩ (fun n => n) 1
        ⟨[.importDecl [⟨some ⟨"rand", false⟩, "\"math/rand\""⟩],
          .typeDecl [⟨⟨"rand", false⟩, .structDef []⟩]]⟩).map
        (fun r => importSpecsOf r.1)
      = some [⟨some ⟨"a0olI1aаeеpрcсxхyуkк", false⟩, "\"math/rand\""⟩]
    ∧ importSpecsOf
        ⟨[.importDecl [⟨some ⟨"rand", false⟩, "\"math/rand\""⟩],
          .typeDecl [⟨⟨"rand", false⟩, .structDef []⟩]]⟩
      = [⟨some ⟨"rand", false⟩, "\"math/rand\""⟩]
    ∧ ([⟨some ⟨"a0olI1aаeеpрcсxхyуkк", false⟩, "\"math/rand\""⟩] : List AImportSpec)
      ≠ [⟨some ⟨"rand", false⟩, "\"math/rand\""⟩] := by
  refine ⟨rfl, rfl, by decide⟩
